import Mathlib

/-!
The `api` client and the `nps` wrapper of go-nps

A shallow embedding of `api/api.go`, `api/error.go` and `nps/nps.go`.

Conventions of the embedding.

* A Go `string` is a Lean `String`; `fmt.Sprintf`/`fmt.Errorf` with `%s`
  verbs is string concatenation.
* A Go `error` is `Option Error` (`none` is `nil`).
* A pointer that may be `nil` is an `Option`; dereferencing `none` is the
  run-time panic `Outcome.panic`.
* Code that mutates its receiver or an argument returns the new value.
* `time.Now()` is an explicit argument `now`; how far the JSON decoder reads
  ahead of the value it decodes is an explicit argument `ahead`.
* The pieces of the Go standard library the code calls (`net/http` headers,
  `net/url` query encoding, the `encoding/json` stream decoder, `io.ReadAll`)
  are modelled next to the code, under the names they have in Go.
-/

set_option linter.unusedVariables false
set_option linter.dupNamespace false

/-! ## Outcomes, strings and errors -/

/-- What a call does: it panics (nil dereference), or returns a value. -/
inductive Outcome (α : Type) where
  | panic (msg : String)
  | ret (a : α)
  deriving Repr, DecidableEq

instance instDecidableEqExcept {ε α : Type} [DecidableEq ε] [DecidableEq α] :
    DecidableEq (Except ε α)
  | .ok a, .ok b =>
    if h : a = b then isTrue (congrArg Except.ok h)
    else isFalse (fun h1 => h (Except.ok.inj h1))
  | .error a, .error b =>
    if h : a = b then isTrue (congrArg Except.error h)
    else isFalse (fun h1 => h (Except.error.inj h1))
  | .ok _, .error _ => isFalse (fun h => Except.noConfusion h)
  | .error _, .ok _ => isFalse (fun h => Except.noConfusion h)

/-- The text of Go's nil-pointer panic. -/
def nilDereference : String :=
  "runtime error: invalid memory address or nil pointer dereference"

namespace strings

/-- The proposition `strings.Contains(s, substr)`: `substr` occurs in `s` as a
contiguous run of characters. -/
def Contains (s substr : String) : Prop := substr.data <:+: s.data

instance (s substr : String) : Decidable (Contains s substr) := by
  unfold Contains; infer_instance

end strings

namespace api

/-- The inner struct of `apiError` (`error.go`, lines 11-14). -/
structure apiErrorResponse where
  Code : String
  Message : String
  deriving Repr, DecidableEq

/-- The `apiError` struct of `error.go`; its one field carries the JSON tag
`error`, the inner fields the tags `code` and `message`. -/
structure apiError where
  Response : apiErrorResponse
  deriving Repr, DecidableEq

/-- The method `(*apiError).Error`:
`fmt.Sprintf("Code: %s Message: %s", e.Response.Code, e.Response.Message)`. -/
def apiError.Error (e : apiError) : String :=
  "Code: " ++ e.Response.Code ++ " Message: " ++ e.Response.Message

end api

/-- A non-nil Go `error` value, by the way it was made. -/
inductive Error where
  /-- From `errors.New(text)` or `fmt.Errorf` without `%w`: the text. -/
  | errorString (text : String)
  /-- From `fmt.Errorf` with one `%w`: the formatted text and the wrapped error. -/
  | wrapError (text : String) (err : Error)
  /-- A `*apiError`. -/
  | apiError (e : api.apiError)
  deriving Repr, DecidableEq

/-- The method `Error()` of the `error` interface. -/
def Error.Error : Error → String
  | .errorString text => text
  | .wrapError text _ => text
  | .apiError e => e.Error

/-! ## `io`: a response body as a stream -/

namespace io

/-- An `io.ReadCloser` seen from its consumer: the data that the coming calls
of `Read` hand over, one element per call, and what `Read` reports once the
data is through: `none` for `io.EOF`, `some e` for a read error (sticky). -/
structure Reader where
  chunks : List String
  err : Option Error
  deriving Repr, DecidableEq

/-- All the bytes the reader still holds. -/
def Reader.content (r : Reader) : String := String.join r.chunks

/-- The function `io.ReadAll(r)`: reads until `Read` fails; `io.EOF` is not
reported as an error. Returns the data, the error and the reader afterwards. -/
def ReadAll (r : Reader) : String × Option Error × Reader :=
  (String.join r.chunks, r.err, { r with chunks := [] })

end io

/-! ## `net/http`: headers, requests and responses -/

namespace http

/-- The predicate `validHeaderFieldByte` of `net/textproto`: the token characters of
RFC 7230. -/
def validHeaderFieldByte (c : Char) : Bool :=
  c.isAlphanum || c ∈ ['!', '#', '$', '%', '&', '\'', '*', '+', '-', '.', '^', '_', '`', '|', '~']

/-- The second loop of `canonicalMIMEHeaderKey`: upper case at the start and
after a hyphen, lower case elsewhere. -/
def canonicalLoop : Bool → List Char → List Char
  | _, [] => []
  | upper, c :: cs =>
    let c1 := if upper then c.toUpper else c.toLower
    c1 :: canonicalLoop (c1 == '-') cs

/-- The function `textproto.CanonicalMIMEHeaderKey`: a key with a byte that is
no token character is returned unchanged. -/
def CanonicalMIMEHeaderKey (s : String) : String :=
  if s.data.all validHeaderFieldByte then String.mk (canonicalLoop true s.data) else s

/-- The type `http.Header` (`map[string][]string`) as an association list. -/
abbrev Header := List (String × List String)

/-- The method `Header.Get`: the first value under the canonical form of
`key`, or the empty string. -/
def Header.Get (h : Header) (key : String) : String :=
  match h.lookup (CanonicalMIMEHeaderKey key) with
  | some (v :: _) => v
  | _ => ""

/-- The method `Header.Set`: the entry under the canonical form of `key` becomes
the single value `value`. -/
def Header.Set (h : Header) (key value : String) : Header :=
  (CanonicalMIMEHeaderKey key, [value]) ::
    h.filter (fun kv => kv.1 != CanonicalMIMEHeaderKey key)

def StatusBadRequest : Int := 400
def StatusUnauthorized : Int := 401
def StatusNotFound : Int := 404
def StatusTooManyRequests : Int := 429

/-- The fields of `http.Response` the client reads. `Body` is never nil on a
response that `http.Client.Do` returned without error. -/
structure Response where
  Status : String
  StatusCode : Int
  Header : Header
  Body : io.Reader
  deriving Repr, DecidableEq

/-- The zero-value `http.Client{}`; what it sends and receives is the
argument `transport` of `api.Client.Do`. -/
structure Client where
  deriving Repr, DecidableEq

end http

/-! ## `net/url` -/

namespace url

/-- The fields of `url.URL` that a URL of the shape
`scheme://host/path?query#fragment` uses. -/
structure URL where
  Scheme : String
  Host : String
  Path : String
  RawQuery : String
  Fragment : String
  deriving Repr, DecidableEq

/-- Cuts a list at the first `sep`: what stands before, and what stands after
(`none` if `sep` does not occur), as `strings.Cut`. -/
def cut (sep : Char) : List Char → List Char × Option (List Char)
  | [] => ([], none)
  | c :: cs =>
    if c = sep then ([], some cs)
    else let r := cut sep cs; (c :: r.1, r.2)

/-- The function `getScheme`: a scheme is a letter followed by letters, digits,
`+`, `-` and `.`, up to a colon. Returns the scheme and the rest; no scheme
gives the empty scheme and the whole input; a colon in first place is an error. -/
def getScheme (raw : List Char) : Option (List Char × List Char) :=
  let rec go : List Char → List Char → Option (List Char × List Char)
    | _, [] => some ([], raw)
    | acc, c :: cs =>
      if c.isAlpha then go (acc ++ [c]) cs
      else if c.isDigit || c = '+' || c = '-' || c = '.' then
        if acc = [] then some ([], raw) else go (acc ++ [c]) cs
      else if c = ':' then
        if acc = [] then none else some (acc, cs)
      else some ([], raw)
  go [] raw

/-- The function `url.Parse` on URLs of the shape `scheme://host/path?query#fragment`
whose parts need no unescaping (no user info, no opaque part): the fragment is
cut at `#`, then the scheme (lower-cased), the query at `?`, and after `//` the
host up to the next `/`. A control character is an error. -/
def Parse (rawURL : String) : Option URL :=
  if rawURL.data.any (fun c => c.toNat < 32 || c.toNat = 127) then none
  else
    let (u, frag) := cut '#' rawURL.data
    match getScheme u with
    | none => none
    | some (scheme, rest) =>
      let (rest, query) := cut '?' rest
      let (host, path) :=
        match rest with
        | '/' :: '/' :: auth =>
          let (h, p) := cut '/' auth
          (h, match p with | some p => '/' :: p | none => [])
        | _ => ([], rest)
      some { Scheme := String.mk (scheme.map Char.toLower)
             Host := String.mk host
             Path := String.mk path
             RawQuery := String.mk (query.getD [])
             Fragment := String.mk (frag.getD []) }

/-- The method `(*URL).String` for a URL whose parts need no escaping. -/
def URL.String (u : URL) : String :=
  let s := if u.Scheme ≠ "" then u.Scheme ++ ":" else ""
  let s :=
    if u.Scheme ≠ "" ∨ u.Host ≠ "" then
      (if u.Host ≠ "" ∨ u.Path ≠ "" then s ++ "//" else s) ++ u.Host
    else s
  let s := if u.Path ≠ "" ∧ u.Path.data.head? ≠ some '/' ∧ u.Host ≠ "" then s ++ "/" else s
  let s := s ++ u.Path
  let s := if u.RawQuery ≠ "" then s ++ "?" ++ u.RawQuery else s
  if u.Fragment ≠ "" then s ++ "#" ++ u.Fragment else s

/-- The digit `"0123456789ABCDEF"[n]` (`upperhex`). -/
def upperhex (n : Nat) : Char :=
  if n < 10 then Char.ofNat (48 + n) else Char.ofNat (55 + n)

/-- The escape `%XX` of the byte `b`. -/
def pct (b : Nat) : List Char := ['%', upperhex (b / 16), upperhex (b % 16)]

/-- The bytes of the UTF-8 encoding of a character. -/
def utf8Bytes (c : Char) : List Nat :=
  let n := c.toNat
  if n < 0x80 then [n]
  else if n < 0x800 then [0xC0 + n / 64, 0x80 + n % 64]
  else if n < 0x10000 then [0xE0 + n / 4096, 0x80 + n / 64 % 64, 0x80 + n % 64]
  else [0xF0 + n / 262144, 0x80 + n / 4096 % 64, 0x80 + n / 64 % 64, 0x80 + n % 64]

/-- The function `shouldEscape(c, encodeQueryComponent)` on an ASCII byte: only
letters, digits, `-`, `_`, `.` and `~` stay. -/
def shouldEscape (c : Char) : Bool :=
  !(c.isAlphanum || c = '-' || c = '_' || c = '.' || c = '~')

/-- The function `escape(s, encodeQueryComponent)` on one character: a space
becomes `+`, every other byte that `shouldEscape` names becomes `%XX`. -/
def escapeChar (c : Char) : List Char :=
  if c.toNat < 0x80 then
    if shouldEscape c then (if c = ' ' then ['+'] else pct c.toNat) else [c]
  else (utf8Bytes c).flatMap pct

/-- The function `url.QueryEscape`. -/
def QueryEscape (s : String) : String := String.mk (s.data.flatMap escapeChar)

/-- The order of Go strings (`<=`): byte by byte, which on UTF-8 text is code
point by code point. -/
def leChars : List Char → List Char → Bool
  | [], _ => true
  | _ :: _, [] => false
  | a :: as, b :: bs => a.toNat < b.toNat || (a.toNat = b.toNat && leChars as bs)

/-- The order `s <= t` of Go strings. -/
def le (s t : String) : Prop := leChars s.data t.data = true

instance (s t : String) : Decidable (le s t) := by unfold le; infer_instance

/-- The type `url.Values` (`map[string][]string`) as an association list with
one entry per key. -/
abbrev Values := List (String × List String)

/-- The method `Values.Add`: appends `value` to the values under `key`. -/
def Values.Add : Values → String → String → Values
  | [], key, value => [(key, [value])]
  | (k, vs) :: rest, key, value =>
    if k = key then (k, vs ++ [value]) :: rest else (k, vs) :: Values.Add rest key value

/-- The inner loop of `Values.Encode` over the values of one key: an `&` goes
in front of a pair unless the buffer is empty. -/
def encodeValues (keyEscaped : String) : String → List String → String
  | buf, [] => buf
  | buf, v :: vs =>
    encodeValues keyEscaped
      ((if buf.length > 0 then buf ++ "&" else buf) ++ keyEscaped ++ "=" ++ QueryEscape v) vs

/-- The outer loop of `Values.Encode` over the sorted keys. -/
def encodeKeys (v : Values) : String → List String → String
  | buf, [] => buf
  | buf, k :: ks => encodeKeys v (encodeValues (QueryEscape k) buf ((v.lookup k).getD [])) ks

/-- The method `Values.Encode`: the pairs `key=value`, escaped, joined by `&`,
the keys in sorted order. -/
def Values.Encode (v : Values) : String :=
  encodeKeys v "" ((v.map Prod.fst).insertionSort le)

end url

/-! ## `encoding/json`: the scanner (`scanner.go`) -/

namespace json

/-- The opcodes a scanner step returns. -/
inductive Op where
  | scanContinue | scanBeginLiteral | scanBeginObject | scanObjectKey
  | scanObjectValue | scanEndObject | scanBeginArray | scanArrayValue
  | scanEndArray | scanSkipSpace | scanEnd | scanError
  deriving Repr, DecidableEq

/-- The entries of the scanner's `parseState` stack. -/
inductive ParseState where
  | parseObjectKey | parseObjectValue | parseArrayValue
  deriving Repr, DecidableEq

/-- The state functions of `scanner.go`, as the values of the field `step`. -/
inductive Step where
  | stateBeginValueOrEmpty | stateBeginValue | stateBeginStringOrEmpty
  | stateBeginString | stateEndValue | stateEndTop
  | stateInString | stateInStringEsc | stateInStringEscU | stateInStringEscU1
  | stateInStringEscU12 | stateInStringEscU123
  | stateNeg | state1 | state0 | stateDot | stateDot0 | stateE | stateESign | stateE0
  | stateT | stateTr | stateTru | stateF | stateFa | stateFal | stateFals
  | stateN | stateNu | stateNul | stateError
  deriving Repr, DecidableEq

/-- The struct `scanner`: the next state function and the stack of open
objects and arrays, innermost first. -/
structure scanner where
  step : Step
  parseState : List ParseState
  deriving Repr, DecidableEq

def maxNestingDepth : Nat := 10000

/-- The method `scanner.reset`. -/
def scanner.reset : scanner := { step := .stateBeginValue, parseState := [] }

/-- The method `scanner.error`: records a syntax error and stops the scanner. -/
def scanner.error (s : scanner) : scanner × Op :=
  ({ s with step := .stateError }, .scanError)

/-- The method `scanner.pushParseState`. -/
def scanner.pushParseState (s : scanner) (newParseState : ParseState)
    (successState : Op) : scanner × Op :=
  let s1 := { s with parseState := newParseState :: s.parseState }
  if s1.parseState.length ≤ maxNestingDepth then (s1, successState) else s1.error

/-- The method `scanner.popParseState`. -/
def scanner.popParseState (s : scanner) : scanner :=
  match s.parseState.tail with
  | [] => { step := .stateEndTop, parseState := [] }
  | ps => { step := .stateEndValue, parseState := ps }

def isSpace (c : Char) : Bool := c = ' ' || c = '\t' || c = '\r' || c = '\n'

def isHex (c : Char) : Bool :=
  ('0' ≤ c && c ≤ '9') || ('a' ≤ c && c ≤ 'f') || ('A' ≤ c && c ≤ 'F')

def isDigit (c : Char) : Bool := '0' ≤ c && c ≤ '9'

/-- The state after the top-level value: only space may follow; the opcode is
`scanEnd` either way. -/
def stateEndTop (s : scanner) (c : Char) : scanner × Op :=
  if isSpace c then (s, .scanEnd) else ((s.error).1, .scanEnd)

/-- The state after a complete value (a closing quote, bracket or brace, or the
close of a number or literal). -/
def stateEndValue (s : scanner) (c : Char) : scanner × Op :=
  match s.parseState with
  | [] => stateEndTop { s with step := .stateEndTop } c
  | ps :: rest =>
    if isSpace c then ({ s with step := .stateEndValue }, .scanSkipSpace)
    else
      match ps with
      | .parseObjectKey =>
        if c = ':' then
          ({ step := .stateBeginValue, parseState := .parseObjectValue :: rest }, .scanObjectKey)
        else s.error
      | .parseObjectValue =>
        if c = ',' then
          ({ step := .stateBeginString, parseState := .parseObjectKey :: rest }, .scanObjectValue)
        else if c = '}' then (s.popParseState, .scanEndObject)
        else s.error
      | .parseArrayValue =>
        if c = ',' then ({ s with step := .stateBeginValue }, .scanArrayValue)
        else if c = ']' then (s.popParseState, .scanEndArray)
        else s.error

/-- The state at the beginning of the input and of every value. -/
def stateBeginValue (s : scanner) (c : Char) : scanner × Op :=
  if isSpace c then (s, .scanSkipSpace)
  else if c = '{' then
    scanner.pushParseState { s with step := .stateBeginStringOrEmpty } .parseObjectKey .scanBeginObject
  else if c = '[' then
    scanner.pushParseState { s with step := .stateBeginValueOrEmpty } .parseArrayValue .scanBeginArray
  else if c = '"' then ({ s with step := .stateInString }, .scanBeginLiteral)
  else if c = '-' then ({ s with step := .stateNeg }, .scanBeginLiteral)
  else if c = '0' then ({ s with step := .state0 }, .scanBeginLiteral)
  else if c = 't' then ({ s with step := .stateT }, .scanBeginLiteral)
  else if c = 'f' then ({ s with step := .stateF }, .scanBeginLiteral)
  else if c = 'n' then ({ s with step := .stateN }, .scanBeginLiteral)
  else if '1' ≤ c && c ≤ '9' then ({ s with step := .state1 }, .scanBeginLiteral)
  else s.error

/-- The state after `[`. -/
def stateBeginValueOrEmpty (s : scanner) (c : Char) : scanner × Op :=
  if isSpace c then (s, .scanSkipSpace)
  else if c = ']' then stateEndValue s c
  else stateBeginValue s c

/-- The state after `,` in an object. -/
def stateBeginString (s : scanner) (c : Char) : scanner × Op :=
  if isSpace c then (s, .scanSkipSpace)
  else if c = '"' then ({ s with step := .stateInString }, .scanBeginLiteral)
  else s.error

/-- The state after `{`. -/
def stateBeginStringOrEmpty (s : scanner) (c : Char) : scanner × Op :=
  if isSpace c then (s, .scanSkipSpace)
  else if c = '}' then
    stateEndValue { s with parseState := .parseObjectValue :: s.parseState.tail } c
  else stateBeginString s c

/-- The state inside a quoted string. -/
def stateInString (s : scanner) (c : Char) : scanner × Op :=
  if c = '"' then ({ s with step := .stateEndValue }, .scanContinue)
  else if c = '\\' then ({ s with step := .stateInStringEsc }, .scanContinue)
  else if c.toNat < 32 then s.error
  else (s, .scanContinue)

/-- The state after a backslash in a string. -/
def stateInStringEsc (s : scanner) (c : Char) : scanner × Op :=
  if c = 'b' || c = 'f' || c = 'n' || c = 'r' || c = 't' || c = '\\' || c = '/' || c = '"' then
    ({ s with step := .stateInString }, .scanContinue)
  else if c = 'u' then ({ s with step := .stateInStringEscU }, .scanContinue)
  else s.error

/-- The four states after `\u`: a hexadecimal digit leads to `next`. -/
def stateHex (next : Step) (s : scanner) (c : Char) : scanner × Op :=
  if isHex c then ({ s with step := next }, .scanContinue) else s.error

/-- The states of a number. -/
def stateNeg (s : scanner) (c : Char) : scanner × Op :=
  if c = '0' then ({ s with step := .state0 }, .scanContinue)
  else if '1' ≤ c && c ≤ '9' then ({ s with step := .state1 }, .scanContinue)
  else s.error

def state0 (s : scanner) (c : Char) : scanner × Op :=
  if c = '.' then ({ s with step := .stateDot }, .scanContinue)
  else if c = 'e' || c = 'E' then ({ s with step := .stateE }, .scanContinue)
  else stateEndValue s c

def state1 (s : scanner) (c : Char) : scanner × Op :=
  if isDigit c then ({ s with step := .state1 }, .scanContinue) else state0 s c

def stateDot (s : scanner) (c : Char) : scanner × Op :=
  if isDigit c then ({ s with step := .stateDot0 }, .scanContinue) else s.error

def stateDot0 (s : scanner) (c : Char) : scanner × Op :=
  if isDigit c then (s, .scanContinue)
  else if c = 'e' || c = 'E' then ({ s with step := .stateE }, .scanContinue)
  else stateEndValue s c

def stateESign (s : scanner) (c : Char) : scanner × Op :=
  if isDigit c then ({ s with step := .stateE0 }, .scanContinue) else s.error

def stateE (s : scanner) (c : Char) : scanner × Op :=
  if c = '+' || c = '-' then ({ s with step := .stateESign }, .scanContinue)
  else stateESign s c

def stateE0 (s : scanner) (c : Char) : scanner × Op :=
  if isDigit c then (s, .scanContinue) else stateEndValue s c

/-- The states of the literals `true`, `false` and `null`: the letter
`want` leads to `next`. -/
def stateLetter (want : Char) (next : Step) (s : scanner) (c : Char) : scanner × Op :=
  if c = want then ({ s with step := next }, .scanContinue) else s.error

/-- One call `s.step(s, c)`. -/
def scanner.run (s : scanner) (c : Char) : scanner × Op :=
  match s.step with
  | .stateBeginValueOrEmpty => stateBeginValueOrEmpty s c
  | .stateBeginValue => stateBeginValue s c
  | .stateBeginStringOrEmpty => stateBeginStringOrEmpty s c
  | .stateBeginString => stateBeginString s c
  | .stateEndValue => stateEndValue s c
  | .stateEndTop => stateEndTop s c
  | .stateInString => stateInString s c
  | .stateInStringEsc => stateInStringEsc s c
  | .stateInStringEscU => stateHex .stateInStringEscU1 s c
  | .stateInStringEscU1 => stateHex .stateInStringEscU12 s c
  | .stateInStringEscU12 => stateHex .stateInStringEscU123 s c
  | .stateInStringEscU123 => stateHex .stateInString s c
  | .stateNeg => stateNeg s c
  | .state1 => state1 s c
  | .state0 => state0 s c
  | .stateDot => stateDot s c
  | .stateDot0 => stateDot0 s c
  | .stateE => stateE s c
  | .stateESign => stateESign s c
  | .stateE0 => stateE0 s c
  | .stateT => stateLetter 'r' .stateTr s c
  | .stateTr => stateLetter 'u' .stateTru s c
  | .stateTru => stateLetter 'e' .stateEndValue s c
  | .stateF => stateLetter 'a' .stateFa s c
  | .stateFa => stateLetter 'l' .stateFal s c
  | .stateFal => stateLetter 's' .stateFals s c
  | .stateFals => stateLetter 'e' .stateEndValue s c
  | .stateN => stateLetter 'u' .stateNu s c
  | .stateNu => stateLetter 'l' .stateNul s c
  | .stateNul => stateLetter 'l' .stateEndValue s c
  | .stateError => (s, .scanError)

/-! ## `encoding/json`: reading one value from a stream (`stream.go`) -/

/-- What scanning the buffered bytes gives: no end yet (the scanner as it
stands), the length of the complete value, or a syntax error. -/
inductive Scan where
  | more (s : scanner)
  | done (n : Nat)
  | error
  deriving Repr, DecidableEq

/-- The inner loop of `Decoder.readValue` over the bytes not yet scanned, `n`
bytes having been scanned before: it stops at the first byte with which the
buffer holds the whole top-level value, or at the offending byte. On
`scanEnd` the value ends before the current byte (the byte after a number);
after a closing brace or bracket the loop feeds the scanner a space to see
whether the top-level value is complete; a top-level string is complete with
its closing quote and a top-level `true`, `false` or `null` with its last
letter, where the scanner stands in `stateEndValue` with no object or array
open. (The classic `stream.go` notices the last two one byte late, which
changes what it has read by then, not the value: see `Decode`.) -/
def scanBytes (s : scanner) (n : Nat) : List Char → Scan
  | [] => .more s
  | c :: cs =>
    match s.run c with
    | (_, .scanEnd) => .done n
    | (_, .scanError) => .error
    | (s1, .scanEndObject) | (s1, .scanEndArray) =>
      match stateEndValue s1 ' ' with
      | (_, .scanEnd) => .done (n + 1)
      | (s2, _) => scanBytes s2 (n + 1) cs
    | (s1, _) =>
      if s1.step = .stateEndValue ∧ s1.parseState = [] then .done (n + 1)
      else scanBytes s1 (n + 1) cs

/-- The errors of the decoder. Their texts are approximate: `newAPIError`
drops the decoder's error. -/
def SyntaxError : Error := .errorString "json: invalid character"
def UnmarshalTypeError : Error := .errorString "json: cannot unmarshal value into Go value"
def ErrUnexpectedEOF : Error := .errorString "unexpected EOF"
def EOF : Error := .errorString "EOF"

/-- The outer loop of `Decoder.readValue` on a fresh decoder: `buf` holds the
bytes read and scanned so far. Each round refills the buffer by one `Read`
and scans the new bytes. Returns the text of the value or the error, and the
data the stream holds after the last read that was needed for it. -/
def readValue (s : scanner) (buf : List Char) (err : Option Error) :
    List String → Except Error (List Char) × List String
  | [] =>
    match err with
    | some e => (.error e, [])
    | none =>
      match s.run ' ' with
      | (_, .scanEnd) => (.ok buf, [])
      | _ => (.error (if buf.all isSpace then EOF else ErrUnexpectedEOF), [])
  | chunk :: rest =>
    match scanBytes s buf.length chunk.data with
    | .done n => (.ok ((buf ++ chunk.data).take n), rest)
    | .error => (.error SyntaxError, rest)
    | .more s1 => readValue s1 (buf ++ chunk.data) err rest

/-! ## `encoding/json`: decoding the value (`decode.go`) -/

def hexVal (c : Char) : Nat :=
  if '0' ≤ c && c ≤ '9' then c.toNat - 48
  else if 'a' ≤ c && c ≤ 'f' then c.toNat - 87
  else if 'A' ≤ c && c ≤ 'F' then c.toNat - 55
  else 0

/-- The rune `unicode.ReplacementChar`. -/
def replacementChar : Char := Char.ofNat 0xFFFD

/-- The function `utf16.IsSurrogate`. -/
def isSurrogate (v : Nat) : Bool := 0xD800 ≤ v && v < 0xE000

/-- Where `unquote` stands between two bytes of a string literal. -/
inductive Unquote where
  /-- Copying characters. -/
  | lit
  /-- After a backslash. -/
  | esc
  /-- After `\u` and `k` hexadecimal digits of value `v`. -/
  | hex (k v : Nat)
  deriving Repr, DecidableEq

/-- A surrogate that no partner followed decodes to the replacement rune. -/
def flush (pending : Option Nat) (out : List Char) : List Char :=
  match pending with
  | none => out
  | some _ => out ++ [replacementChar]

/-- A complete `\uXXXX` of value `v`, with `pending` the surrogate of a `\u`
escape that stands right before it, if any. A high surrogate followed by a low
one gives their code point (`utf16.DecodeRune`); a surrogate waits for the
next escape; any other value is the rune itself. -/
def emitU (pending : Option Nat) (v : Nat) (out : List Char) : Option Nat × List Char :=
  match pending with
  | some p =>
    if 0xD800 ≤ p && p < 0xDC00 && 0xDC00 ≤ v && v < 0xE000 then
      (none, out ++ [Char.ofNat ((p - 0xD800) * 0x400 + (v - 0xDC00) + 0x10000)])
    else if isSurrogate v then (some v, out ++ [replacementChar])
    else (none, out ++ [replacementChar, Char.ofNat v])
  | none => if isSurrogate v then (some v, out) else (none, out ++ [Char.ofNat v])

/-- The character a one-letter escape stands for (`unquote`). -/
def escChar (c : Char) : Option Char :=
  if c = '"' || c = '\\' || c = '/' || c = '\'' then some c
  else if c = 'b' then some (Char.ofNat 8)
  else if c = 'f' then some (Char.ofNat 12)
  else if c = 'n' then some '\n'
  else if c = 'r' then some '\r'
  else if c = 't' then some '\t'
  else none

/-- The function `unquote` on the text after the opening quote: the string up
to the closing quote, and the text after it. -/
def unquoteFrom : Unquote → Option Nat → List Char → List Char → Option (String × List Char)
  | _, _, _, [] => none
  | .lit, p, out, c :: cs =>
    if c = '"' then some (String.mk (flush p out), cs)
    else if c = '\\' then unquoteFrom .esc p out cs
    else if c.toNat < 32 then none
    else unquoteFrom .lit none (flush p out ++ [c]) cs
  | .esc, p, out, c :: cs =>
    if c = 'u' then unquoteFrom (.hex 0 0) p out cs
    else
      match escChar c with
      | some d => unquoteFrom .lit none (flush p out ++ [d]) cs
      | none => none
  | .hex k v, p, out, c :: cs =>
    if isHex c then
      if k = 3 then
        unquoteFrom .lit (emitU p (v * 16 + hexVal c) out).1 (emitU p (v * 16 + hexVal c) out).2 cs
      else unquoteFrom (.hex (k + 1) (v * 16 + hexVal c)) p out cs
    else none

/-- A JSON value as far as decoding into `apiError` looks at it: the text of
strings and the members of objects; of arrays, numbers and booleans only the
kind. -/
inductive Value where
  | null | bool | number | array
  | string (s : String)
  | object (members : List (String × Value))

def skipSpace : List Char → List Char
  | [] => []
  | c :: cs => if isSpace c then skipSpace cs else c :: cs

def isNumberByte (c : Char) : Bool :=
  isDigit c || c = '-' || c = '+' || c = '.' || c = 'e' || c = 'E'

def skipNumber : List Char → List Char
  | [] => []
  | c :: cs => if isNumberByte c then skipNumber cs else c :: cs

mutual

/-- Reads one value off the front of a text that the scanner has accepted.
The first argument bounds the number of calls; the length of the text plus
one is enough. -/
def parseValue : Nat → List Char → Option (Value × List Char)
  | 0, _ => none
  | fuel + 1, cs =>
    match skipSpace cs with
    | [] => none
    | c :: rest =>
      if c = '{' then
        match skipSpace rest with
        | [] => none
        | d :: rest1 =>
          if d = '}' then some (.object [], rest1) else parseMembers fuel (d :: rest1) []
      else if c = '[' then
        match skipSpace rest with
        | [] => none
        | d :: rest1 =>
          if d = ']' then some (.array, rest1) else parseElements fuel (d :: rest1)
      else if c = '"' then
        match unquoteFrom .lit none [] rest with
        | none => none
        | some (s, rest1) => some (.string s, rest1)
      else if c = 'n' then (if rest.take 3 = ['u', 'l', 'l'] then some (.null, rest.drop 3) else none)
      else if c = 't' then (if rest.take 3 = ['r', 'u', 'e'] then some (.bool, rest.drop 3) else none)
      else if c = 'f' then
        (if rest.take 4 = ['a', 'l', 's', 'e'] then some (.bool, rest.drop 4) else none)
      else if c = '-' || isDigit c then some (.number, skipNumber rest)
      else none

/-- The members of an object, from a key on, up to the closing brace. -/
def parseMembers : Nat → List Char → List (String × Value) → Option (Value × List Char)
  | 0, _, _ => none
  | fuel + 1, cs, acc =>
    match skipSpace cs with
    | [] => none
    | c :: rest =>
      if c = '"' then
        match unquoteFrom .lit none [] rest with
        | none => none
        | some (key, rest1) =>
          match skipSpace rest1 with
          | [] => none
          | d :: rest2 =>
            if d = ':' then
              match parseValue fuel rest2 with
              | none => none
              | some (v, rest3) =>
                match skipSpace rest3 with
                | [] => none
                | e :: rest4 =>
                  if e = ',' then parseMembers fuel rest4 (acc ++ [(key, v)])
                  else if e = '}' then some (.object (acc ++ [(key, v)]), rest4)
                  else none
            else none
      else none

/-- The elements of an array, up to the closing bracket. -/
def parseElements : Nat → List Char → Option (Value × List Char)
  | 0, _ => none
  | fuel + 1, cs =>
    match parseValue fuel cs with
    | none => none
    | some (_, rest) =>
      match skipSpace rest with
      | [] => none
      | e :: rest1 =>
        if e = ',' then parseElements fuel rest1
        else if e = ']' then some (.array, rest1)
        else none

end

/-- The function `foldRune` on a key: ASCII letters go to upper case, and the two
other runes that fold to an ASCII letter, U+017F and U+212A, go to `S` and `K`.
Runes that fold among themselves only are left as they are; that does not
change whether a key folds to the same name as an ASCII field name. -/
def foldRune (c : Char) : Char :=
  if 'a' ≤ c && c ≤ 'z' then c.toUpper
  else if c.toNat = 0x17F then 'S'
  else if c.toNat = 0x212A then 'K'
  else c

/-- The function `foldName`: two names that fold alike are the same field. -/
def foldName (s : String) : List Char := s.data.map foldRune

/-- The method `decodeState.saveError`: the first error is kept. -/
def saveError (saved : Option Error) (err : Error) : Option Error :=
  match saved with
  | none => some err
  | some e => some e

/-- The method `decodeState.object` on the inner struct: the members whose key
folds to `code` or `message` are stored, a string as its text, `null` as no
change, any other value as a type error; other members are skipped. -/
def unmarshalResponse :
    List (String × Value) → api.apiErrorResponse × Option Error →
      api.apiErrorResponse × Option Error
  | [], st => st
  | (key, v) :: ms, (r, saved) =>
    if foldName key = foldName "code" then
      match v with
      | .string s => unmarshalResponse ms ({ r with Code := s }, saved)
      | .null => unmarshalResponse ms (r, saved)
      | _ => unmarshalResponse ms (r, saveError saved UnmarshalTypeError)
    else if foldName key = foldName "message" then
      match v with
      | .string s => unmarshalResponse ms ({ r with Message := s }, saved)
      | .null => unmarshalResponse ms (r, saved)
      | _ => unmarshalResponse ms (r, saveError saved UnmarshalTypeError)
    else unmarshalResponse ms (r, saved)

/-- The method `decodeState.object` on `apiError`: the members whose key folds to
`error` are decoded into the field `Response`, an object member by member,
`null` as no change, any other value as a type error. -/
def unmarshalMembers :
    List (String × Value) → api.apiError × Option Error → api.apiError × Option Error
  | [], st => st
  | (key, v) :: ms, (a, saved) =>
    if foldName key = foldName "error" then
      match v with
      | .object inner =>
        unmarshalMembers ms
          ({ Response := (unmarshalResponse inner (a.Response, saved)).1 },
            (unmarshalResponse inner (a.Response, saved)).2)
      | .null => unmarshalMembers ms (a, saved)
      | _ => unmarshalMembers ms (a, saveError saved UnmarshalTypeError)
    else unmarshalMembers ms (a, saved)

/-- The method `decodeState.unmarshal` into a `*apiError`: the value read and
the saved error. -/
def unmarshal (v : Value) (a : api.apiError) : api.apiError × Option Error :=
  match v with
  | .object members => unmarshalMembers members (a, none)
  | .null => (a, none)
  | _ => (a, some UnmarshalTypeError)

/-- The call `json.NewDecoder(r).Decode(v)` with `v` a `*apiError`: reads one
value from the stream and decodes it into `v`. Returns the struct, the error
and the reader as the decoder leaves it: what the decoder has read into its
buffer is gone from the reader, whether or not the value used it.

The decoder reads at least up to the read that brings the close of the value
or the offending byte. How many reads it makes beyond that one is a matter
of the library's buffering and differs between versions of the library: the
classic `stream.go` makes one more when a top-level string or literal closes
with the data of a read, a decoder that needs no look-ahead there makes
none. That number is the argument `ahead`; the struct and the error do not
depend on it. -/
def Decode (ahead : Nat) (r : io.Reader) (v : api.apiError) :
    api.apiError × Option Error × io.Reader :=
  match readValue scanner.reset [] r.err r.chunks with
  | (.error e, rest) => (v, some e, { r with chunks := rest.drop ahead })
  | (.ok data, rest) =>
    match parseValue (data.length + 1) data with
    | none => (v, some SyntaxError, { r with chunks := rest.drop ahead })
    | some (val, _) =>
      ((unmarshal val v).1, (unmarshal val v).2, { r with chunks := rest.drop ahead })

end json

/-! ## `sync`, `time`, `context` -/

namespace sync

/-- A `sync.RWMutex`. The code locks and unlocks it within one call, so the
mutex is unlocked whenever a call begins or returns; it has no state here. -/
structure RWMutex where
  deriving Repr, DecidableEq

end sync

namespace time

/-- A `time.Time`, as a number of ticks. -/
abbrev Time := Nat

end time

namespace context

/-- A `context.Context`: the code only hands it on. -/
abbrev Context := Nat

end context

namespace http

/-- The fields of `http.Request` that the options of this package touch. `URL` is
a pointer: nil in a zero value, set on a request made by
`http.NewRequestWithContext`. -/
structure Request where
  ctx : context.Context
  Method : String
  URL : Option url.URL
  Header : Header
  Body : Option io.Reader
  deriving Repr, DecidableEq

end http

/-! ## Package `api` (`api/api.go`, `api/error.go`) -/

namespace api

def defaultBaseUrl : String := "https://developer.nps.gov/api/v1/"
def headerApiKey : String := "X-Api-Key"
def headerRateLimit : String := "X-RateLimit-Limit"
def headerRateLimitRemaining : String := "X-RateLimit-Remaining"

/-- The struct `RateLimit`; the embedded `*sync.RWMutex` is nil in a zero value. -/
structure RateLimit where
  limit : String
  limitRemaining : String
  lastUpdated : time.Time
  RWMutex : Option sync.RWMutex
  deriving Repr, DecidableEq

/-- The struct `Client`: the embedded `*http.Client` (the field `httpClient`
here, its Go name `Client` being the name of the struct), the base URL, the api
key and the rate-limit snapshot, the three pointers nil in a zero value. -/
structure Client where
  httpClient : Option http.Client
  url : Option url.URL
  token : String
  rateLimit : Option RateLimit
  deriving Repr, DecidableEq

/-- The function `New` (`api.go`, lines 48-60). The struct literal sets `Client`,
`url` and `token`; `rateLimit` keeps its zero value, nil. -/
def New (token : String) : Option Client × Option Error :=
  let baseUrl := url.Parse defaultBaseUrl
  if token = "" then (none, some (.errorString "api key token was empty"))
  else (some { httpClient := some {}, url := baseUrl, token := token, rateLimit := none }, none)

/-- The type `Option` of `api.go` (named `ReqOption` here, `Option` being taken):
a function that changes the request and may fail, or panic. -/
abbrev ReqOption := http.Request → Outcome (http.Request × Option Error)

/-- The two calls of the standard library in `NewRequest`, as functions:
`url.JoinPath(base, elem)` and `http.NewRequestWithContext(ctx, method, url, nil)`. -/
structure Std where
  JoinPath : String → String → Except Error String
  NewRequestWithContext : context.Context → String → String → Except Error http.Request

/-- The loop of `NewRequest` over the options (`api.go`, lines 80-86). -/
def applyOptions :
    List ReqOption → http.Request → Outcome (Option http.Request × Option Error)
  | [], req => .ret (some req, none)
  | option :: rest, req =>
    match option req with
    | .panic msg => .panic msg
    | .ret (_, some err) => .ret (none, some err)
    | .ret (req1, none) => applyOptions rest req1

/-- The method `Client.NewRequest` (`api.go`, lines 63-87). -/
def Client.NewRequest (std : Std) (c : Client) (ctx : context.Context) (method path : String)
    (options : List ReqOption) : Outcome (Option http.Request × Option Error) :=
  match c.url with
  | none => .panic nilDereference
  | some base =>
    match std.JoinPath base.String path with
    | .error err => .ret (none, some err)
    | .ok u =>
      match std.NewRequestWithContext ctx method u with
      | .error err => .ret (none, some err)
      | .ok req =>
        let req1 := { req with Header := req.Header.Set "Accept" "application/json; charset=utf-8" }
        let req2 := { req1 with Header := req1.Header.Set headerApiKey c.token }
        applyOptions options req2

/-- The option `WithQuery` (`api.go`, lines 108-121); `queryMap` lists the
entries of the Go map in the order the `range` loop meets them. The
assignment `r.URL.RawQuery = ...` dereferences `r.URL`. -/
def WithQuery (queryMap : List (String × String)) : ReqOption := fun r =>
  let params : url.Values := queryMap.foldl (fun ps kv => ps.Add kv.1 kv.2) []
  match r.URL with
  | none => .panic nilDereference
  | some u => .ret ({ r with URL := some { u with RawQuery := params.Encode } }, none)

/-- The method `Client.updateRateLimitAmounts` (`api.go`, lines 176-183):
`c.rateLimit.Lock()` dereferences the snapshot and its mutex. -/
def Client.updateRateLimitAmounts (c : Client) (resp : http.Response) (now : time.Time) :
    Outcome Client :=
  match c.rateLimit with
  | none => .panic nilDereference
  | some rl =>
    match rl.RWMutex with
    | none => .panic nilDereference
    | some _ =>
      .ret { c with rateLimit := some { rl with
                limit := resp.Header.Get headerRateLimit
                limitRemaining := resp.Header.Get headerRateLimitRemaining
                lastUpdated := now } }

/-- The function `newAPIError` (`error.go`, lines 21-36). Returns the error and
the response with its body as the calls leave it. `ahead` is the read-ahead
of the JSON decoder (see `json.Decode`). -/
def newAPIError (ahead : Nat) (resp : http.Response) : Option Error × http.Response :=
  match json.Decode ahead resp.Body { Response := { Code := "", Message := "" } } with
  | (_, some _, body1) =>
    match io.ReadAll body1 with
    | (_, some err, body2) =>
      (some (.wrapError (resp.Status ++ ": unable to decode error response: " ++ err.Error) err),
        { resp with Body := body2 })
    | (b, none, body2) => (some (.errorString (resp.Status ++ ": " ++ b)), { resp with Body := body2 })
  | (apiErrResp, none, body1) => (some (.apiError apiErrResp), { resp with Body := body1 })

/-- The method `Client.validateResponse` (`api.go`, lines 190-208). Returns the
client with its snapshot, the response with its body as the call leaves it,
and the error. `ahead` is the read-ahead of the JSON decoder in
`newAPIError`. -/
def Client.validateResponse (ahead : Nat) (c : Client) (resp : http.Response)
    (now : time.Time) :
    Outcome (Client × http.Response × Option Error) :=
  match c.updateRateLimitAmounts resp now with
  | .panic msg => .panic msg
  | .ret c1 =>
    if resp.StatusCode < 400 then .ret (c1, resp, none)
    else if resp.StatusCode = http.StatusTooManyRequests then
      .ret (c1, resp, some (.errorString
        ("your API key is being temporarily blocked from making further requests. The block will automatically be lifted by waiting an hour: "
          ++ resp.Status)))
    else if resp.StatusCode = http.StatusUnauthorized then
      .ret (c1, resp, some (.errorString ("not authorized for api endpoint: " ++ resp.Status)))
    else if resp.StatusCode = http.StatusBadRequest then
      .ret (c1, resp, some (.errorString ("request to api was not understood: " ++ resp.Status)))
    else if resp.StatusCode = http.StatusNotFound then
      .ret (c1, resp, some (.errorString ("api endpoint was not found: " ++ resp.Status)))
    else .ret (c1, (newAPIError ahead resp).2, (newAPIError ahead resp).1)

/-- The method `Client.Do` (`api.go`, lines 161-174). `transport` is what
`c.Client.Do(req)` does: it gives a response, or an error with or without one. -/
def Client.Do (ahead : Nat)
    (transport : http.Request → Except (Option http.Response × Error) http.Response)
    (c : Client) (req : http.Request) (now : time.Time) :
    Outcome (Client × Option http.Response × Option Error) :=
  match c.httpClient with
  | none => .panic nilDereference
  | some _ =>
    match transport req with
    | .error (resp, err) => .ret (c, resp, some err)
    | .ok resp =>
      match c.validateResponse ahead resp now with
      | .panic msg => .panic msg
      | .ret (c1, _, some err) => .ret (c1, none, some err)
      | .ret (c1, resp1, none) => .ret (c1, some resp1, none)

end api

/-! ## Package `nps` (`nps/nps.go`) -/

namespace nps

/-- The struct `ParksService`; its field `client` points back at the `Client`
that holds it and is left out. -/
structure ParksService where
  deriving Repr, DecidableEq

/-- The struct `Client` of package `nps`. -/
structure Client where
  apiClient : Option api.Client
  Parks : Option ParksService
  deriving Repr, DecidableEq

/-- The function `New` (`nps.go`, lines 14-27). -/
def New (token : String) : Option Client × Option Error :=
  match api.New token with
  | (_, some err) => (none, some err)
  | (apiClient, none) => (some { apiClient := apiClient, Parks := some {} }, none)

end nps

/-! ## Notions used in the statements -/

namespace api

/-- The rate-limit snapshot of the client is initialised: `rateLimit` is not
nil and neither is its mutex. -/
def Client.Initialised (c : Client) : Prop :=
  ∃ rl m, c.rateLimit = some rl ∧ rl.RWMutex = some m

/-- The call `validateResponse` on `resp` returns an error whose text contains
`phrase`, and with any other body in place of `resp.Body`, and any read-ahead
of the decoder, it returns the same client and the same error and hands the
response back with that body untouched. -/
def Client.RejectsWith (c : Client) (resp : http.Response) (now : time.Time)
    (phrase : String) : Prop :=
  ∃ c1 err,
    strings.Contains err.Error phrase ∧
    ∀ (ahead : Nat) (body : io.Reader),
      c.validateResponse ahead { resp with Body := body } now =
        .ret (c1, { resp with Body := body }, some err)

/-- The request as an option leaves it (the request itself if the option
panics). -/
def after (option : ReqOption) (req : http.Request) : http.Request :=
  match option req with
  | .ret (req1, _) => req1
  | .panic _ => req

/-- The request after the options have been applied to `req` one by one, in
the order of the list. -/
def applied (options : List ReqOption) (req : http.Request) : http.Request :=
  options.foldl (fun r option => after option r) req

/-- Each option of the list returns, with no error, when the options are
applied to `req` one by one, in the order of the list. -/
def AllSucceed : List ReqOption → http.Request → Prop
  | [], _ => True
  | option :: rest, req =>
    option req = .ret (after option req, none) ∧ AllSucceed rest (after option req)

/-- The base request of `NewRequest`: the request of
`http.NewRequestWithContext` with the two headers set. -/
def baseRequest (c : Client) (req : http.Request) : http.Request :=
  { req with Header :=
      (req.Header.Set "Accept" "application/json; charset=utf-8").Set "X-Api-Key" c.token }

end api

namespace json

/-- The digit `"0123456789abcdef"[n]`. -/
def hexDigit (n : Nat) : Char :=
  if n < 10 then Char.ofNat (48 + n) else Char.ofNat (87 + n)

/-- A character as it stands in a JSON string literal: the double quote and the
backslash behind a backslash, a control character as `u00XX` behind a
backslash, any other character as itself. -/
def quoteChar (c : Char) : List Char :=
  if c = '"' then ['\\', '"']
  else if c = '\\' then ['\\', '\\']
  else if c.toNat < 32 then
    ['\\', 'u', '0', '0', hexDigit (c.toNat / 16), hexDigit (c.toNat % 16)]
  else [c]

/-- The JSON string literal of a string. -/
def quote (s : String) : String :=
  "\"" ++ String.mk (s.data.flatMap quoteChar) ++ "\""

end json

namespace api

/-- The JSON envelope of the API's errors with the given code and message: an
object whose member `error` is an object with the members `code` and `message`,
both string literals, without white space. -/
def envelope (code message : String) : String :=
  "\x7b\"error\":\x7b\"code\":" ++ json.quote code ++ ",\"message\":" ++ json.quote message
    ++ "\x7d\x7d"

end api

namespace url

/-- The unreserved characters of RFC 3986: letters, digits, `-`, `.`, `_`, `~`. -/
def unreserved (c : Char) : Bool :=
  c.isAlphanum || c = '-' || c = '.' || c = '_' || c = '~'

/-- The value of a hexadecimal digit (`unhex`). -/
def unhex (c : Char) : Option Nat :=
  if '0' ≤ c && c ≤ '9' then some (c.toNat - 48)
  else if 'a' ≤ c && c ≤ 'f' then some (c.toNat - 87)
  else if 'A' ≤ c && c ≤ 'F' then some (c.toNat - 55)
  else none

/-- Where unescaping stands between two characters. -/
inductive Unescape where
  /-- Copying characters. -/
  | lit
  /-- After a `%`. -/
  | pct
  /-- After a `%` and a hexadecimal digit of value `x`. -/
  | pct1 (x : Nat)
  deriving Repr, DecidableEq

/-- The bytes that an escaped query component stands for, as `url.QueryUnescape`
reads it: `%XX` is the byte with the hexadecimal digits `XX`, `+` is a space,
any other character stands for itself; a `%` without two hexadecimal digits
after it is an error. -/
def unescapeFrom : Unescape → List Char → Option (List Nat)
  | .lit, [] => some []
  | .pct, [] => none
  | .pct1 _, [] => none
  | .lit, c :: cs =>
    if c = '%' then unescapeFrom .pct cs
    else if c = '+' then (unescapeFrom .lit cs).map (fun bs => 32 :: bs)
    else (unescapeFrom .lit cs).map (fun bs => utf8Bytes c ++ bs)
  | .pct, c :: cs =>
    match unhex c with
    | some x => unescapeFrom (.pct1 x) cs
    | none => none
  | .pct1 x, c :: cs =>
    match unhex c with
    | some y => (unescapeFrom .lit cs).map (fun bs => (16 * x + y) :: bs)
    | none => none

/-- A continuation byte of UTF-8: `10xxxxxx`. -/
def isCont (b : Nat) : Bool := 0x80 ≤ b && b < 0xC0

/-- Where UTF-8 decoding stands between two bytes: at the start of a
character, or with one, two or three continuation bytes to come and the
payload bits read so far. -/
inductive Utf8 where
  | start
  | more1 (acc : Nat)
  | more2 (acc : Nat)
  | more3 (acc : Nat)
  deriving Repr, DecidableEq

/-- The text that a sequence of bytes spells in UTF-8: a byte below `0x80` is a
character; a lead byte `110xxxxx`, `1110xxxx` or `11110xxx` takes one, two or
three continuation bytes and gives the character of their payload bits. -/
def utf8DecodeFrom : Utf8 → List Nat → Option (List Char)
  | .start, [] => some []
  | .more1 _, [] => none
  | .more2 _, [] => none
  | .more3 _, [] => none
  | .start, b :: bs =>
    if b < 0x80 then (utf8DecodeFrom .start bs).map (fun cs => Char.ofNat b :: cs)
    else if b < 0xC0 then none
    else if b < 0xE0 then utf8DecodeFrom (.more1 (b - 0xC0)) bs
    else if b < 0xF0 then utf8DecodeFrom (.more2 (b - 0xE0)) bs
    else if b < 0xF8 then utf8DecodeFrom (.more3 (b - 0xF0)) bs
    else none
  | .more3 acc, b :: bs =>
    if isCont b then utf8DecodeFrom (.more2 (acc * 64 + (b - 0x80))) bs else none
  | .more2 acc, b :: bs =>
    if isCont b then utf8DecodeFrom (.more1 (acc * 64 + (b - 0x80))) bs else none
  | .more1 acc, b :: bs =>
    if isCont b then
      (utf8DecodeFrom .start bs).map (fun cs => Char.ofNat (acc * 64 + (b - 0x80)) :: cs)
    else none

/-- The text that an escaped query component stands for (`url.QueryUnescape`,
the bytes read as UTF-8). -/
def QueryUnescape (s : String) : Option String :=
  match unescapeFrom .lit s.data with
  | none => none
  | some bs => (utf8DecodeFrom .start bs).map String.mk

/-- The URL encoding of a string map, given as the list of its entries: the
pairs `key=value`, key and value escaped, in the order of the keys, joined
by `&`. -/
def encodeMap (m : List (String × String)) : String :=
  "&".intercalate (((m.map Prod.fst).insertionSort le).map
    fun k => QueryEscape k ++ "=" ++ QueryEscape ((m.lookup k).getD ""))

end url

/-! ## Sample values -/

namespace sample

/-- A client as `New` makes it, with the snapshot and its mutex filled in. -/
def client : api.Client :=
  { httpClient := some {}
    url := url.Parse api.defaultBaseUrl
    token := "key"
    rateLimit := some { limit := "40", limitRemaining := "7", lastUpdated := 1, RWMutex := some {} } }

/-- A response with the given status and body and both rate-limit headers. -/
def response (status : String) (code : Int) (body : List String) : http.Response :=
  { Status := status
    StatusCode := code
    Header := [("X-Ratelimit-Limit", ["1000"]), ("X-Ratelimit-Remaining", ["999"])]
    Body := { chunks := body, err := none } }

/-- A request to the parks endpoint that carries a query string. -/
def request : http.Request :=
  { ctx := 0
    Method := "GET"
    URL := some { Scheme := "https", Host := "developer.nps.gov", Path := "/api/v1/parks",
                  RawQuery := "limit=5", Fragment := "" }
    Header := []
    Body := none }

/-- A standard library whose `JoinPath` appends the element and whose
`NewRequestWithContext` returns `request` with the method asked for. -/
def std : api.Std :=
  { JoinPath := fun base elem => .ok (base ++ elem)
    NewRequestWithContext := fun ctx method _ => .ok { request with ctx := ctx, Method := method } }

/-- An option that sets the method. -/
def setMethod (method : String) : api.ReqOption :=
  fun r => .ret ({ r with Method := method }, none)

/-- An option that fails. -/
def failing (text : String) : api.ReqOption := fun r => .ret (r, some (.errorString text))

end sample

/-! ## Lemmas -/

namespace strings

theorem Contains_append_right {s substr : String} (t : String) (h : Contains s substr) :
    Contains (s ++ t) substr := by
  obtain ⟨a, b, hab⟩ := h
  exact ⟨a, b ++ t.data, by simp [← hab]⟩

theorem Contains_append_left {s substr : String} (t : String) (h : Contains s substr) :
    Contains (t ++ s) substr := by
  obtain ⟨a, b, hab⟩ := h
  exact ⟨t.data ++ a, b, by simp [← hab]⟩

theorem Contains_self (s : String) : Contains s s := List.infix_refl _

end strings

namespace api

theorem updateRateLimitAmounts_of_initialised {c : Client} {rl : RateLimit} {m : sync.RWMutex}
    (hc : c.rateLimit = some rl) (hm : rl.RWMutex = some m) (resp : http.Response)
    (now : time.Time) :
    c.updateRateLimitAmounts resp now =
      .ret { c with rateLimit := some { rl with
                limit := resp.Header.Get headerRateLimit
                limitRemaining := resp.Header.Get headerRateLimitRemaining
                lastUpdated := now } } := by
  simp [Client.updateRateLimitAmounts, hc, hm]

theorem updateRateLimitAmounts_body {c : Client} (resp : http.Response) (body : io.Reader)
    (now : time.Time) :
    c.updateRateLimitAmounts { resp with Body := body } now =
      c.updateRateLimitAmounts resp now := rfl

/-- The classification of `validateResponse` once the snapshot is updated. -/
theorem validateResponse_of_update (ahead : Nat) {c c1 : Client} {resp : http.Response}
    {now : time.Time} (hu : c.updateRateLimitAmounts resp now = .ret c1) :
    c.validateResponse ahead resp now =
      if resp.StatusCode < 400 then .ret (c1, resp, none)
      else if resp.StatusCode = 429 then
        .ret (c1, resp, some (.errorString
          ("your API key is being temporarily blocked from making further requests. The block will automatically be lifted by waiting an hour: "
            ++ resp.Status)))
      else if resp.StatusCode = 401 then
        .ret (c1, resp, some (.errorString ("not authorized for api endpoint: " ++ resp.Status)))
      else if resp.StatusCode = 400 then
        .ret (c1, resp, some (.errorString ("request to api was not understood: " ++ resp.Status)))
      else if resp.StatusCode = 404 then
        .ret (c1, resp, some (.errorString ("api endpoint was not found: " ++ resp.Status)))
      else .ret (c1, (newAPIError ahead resp).2, (newAPIError ahead resp).1) := by
  simp only [Client.validateResponse, hu, http.StatusTooManyRequests, http.StatusUnauthorized,
    http.StatusBadRequest, http.StatusNotFound]

/-- Every return of `newAPIError` carries an error. -/
theorem newAPIError_isSome (ahead : Nat) (resp : http.Response) :
    (newAPIError ahead resp).1.isSome = true := by
  unfold newAPIError
  split
  · split <;> rfl
  · rfl

theorem rejectsWith_of_branch {c c1 : Client} {resp : http.Response} {now : time.Time}
    (text : String) {phrase : String}
    (hu : c.updateRateLimitAmounts resp now = .ret c1)
    (hv : ∀ (ahead : Nat) (body : io.Reader),
      c.validateResponse ahead { resp with Body := body } now =
        .ret (c1, { resp with Body := body }, some (.errorString (text ++ resp.Status))))
    (hp : strings.Contains text phrase) :
    c.RejectsWith resp now phrase :=
  ⟨c1, .errorString (text ++ resp.Status), strings.Contains_append_right _ hp, hv⟩

end api

namespace http

theorem Header.Get_Set_self (h : Header) (key value : String) :
    (h.Set key value).Get key = value := by
  simp [Header.Get, Header.Set, List.lookup]

theorem Header.Get_Set_other (h : Header) (key key1 value value1 : String)
    (hk : CanonicalMIMEHeaderKey key ≠ CanonicalMIMEHeaderKey key1) :
    ((h.Set key value).Set key1 value1).Get key = value := by
  have h1 : (CanonicalMIMEHeaderKey key == CanonicalMIMEHeaderKey key1) = false := by
    simpa using hk
  simp [Header.Get, Header.Set, List.lookup, h1, hk]

end http

namespace api

theorem applied_cons (o : ReqOption) (rest : List ReqOption) (req : http.Request) :
    applied (o :: rest) req = applied rest (after o req) := rfl

theorem applyOptions_of_allSucceed (options : List ReqOption) (req : http.Request)
    (h : AllSucceed options req) :
    applyOptions options req = .ret (some (applied options req), none) := by
  induction options generalizing req with
  | nil => rfl
  | cons o rest ih =>
    obtain ⟨h1, h2⟩ := h
    rw [applyOptions, h1, applied_cons]
    exact ih _ h2

theorem applyOptions_first_failure (pre : List ReqOption) (o : ReqOption) (post : List ReqOption)
    (req req1 : http.Request) (err : Error) (h : AllSucceed pre req)
    (he : o (applied pre req) = .ret (req1, some err)) :
    applyOptions (pre ++ o :: post) req = .ret (none, some err) := by
  induction pre generalizing req with
  | nil =>
    have he1 : o req = .ret (req1, some err) := he
    rw [List.nil_append, applyOptions, he1]
  | cons p rest ih =>
    obtain ⟨h1, h2⟩ := h
    rw [List.cons_append, applyOptions, h1]
    exact ih _ h2 (by rw [applied_cons] at he; exact he)

end api

namespace url

theorem leChars_total : ∀ a b : List Char, leChars a b = true ∨ leChars b a = true
  | [], _ => Or.inl rfl
  | _ :: _, [] => Or.inr rfl
  | a :: as, b :: bs => by
    rcases Nat.lt_trichotomy a.toNat b.toNat with h | h | h
    · left; simp [leChars, h]
    · rcases leChars_total as bs with h1 | h1
      · left; simp [leChars, h, h1]
      · right; simp [leChars, h, h1]
    · right; simp [leChars, h]

theorem leChars_trans : ∀ a b c : List Char,
    leChars a b = true → leChars b c = true → leChars a c = true
  | [], _, _, _, _ => rfl
  | _ :: _, [], _, h, _ => by simp [leChars] at h
  | _ :: _, _ :: _, [], _, h => by simp [leChars] at h
  | a :: as, b :: bs, c :: cs, h1, h2 => by
    simp only [leChars, Bool.or_eq_true, Bool.and_eq_true, decide_eq_true_eq] at h1 h2 ⊢
    rcases h1 with h1 | ⟨e1, h1⟩
    · rcases h2 with h2 | ⟨e2, h2⟩
      · left; omega
      · left; omega
    · rcases h2 with h2 | ⟨e2, h2⟩
      · left; omega
      · right; exact ⟨by omega, leChars_trans as bs cs h1 h2⟩

theorem leChars_antisymm : ∀ a b : List Char,
    leChars a b = true → leChars b a = true → a = b
  | [], [], _, _ => rfl
  | [], _ :: _, _, h => by simp [leChars] at h
  | _ :: _, [], h, _ => by simp [leChars] at h
  | a :: as, b :: bs, h1, h2 => by
    simp only [leChars, Bool.or_eq_true, Bool.and_eq_true, decide_eq_true_eq] at h1 h2
    rcases h1 with h1 | ⟨e1, h1⟩
    · rcases h2 with h2 | ⟨e2, h2⟩ <;> omega
    · rcases h2 with h2 | ⟨e2, h2⟩
      · omega
      · have hab : a = b := Char.ext (UInt32.ext (by simpa [Char.toNat, UInt32.toNat] using e1))
        rw [hab, leChars_antisymm as bs h1 h2]

theorem le_isTotal : IsTotal String le := ⟨fun s t => leChars_total s.data t.data⟩

theorem le_isTrans : IsTrans String le := ⟨fun s t u => leChars_trans s.data t.data u.data⟩

theorem le_isAntisymm : IsAntisymm String le :=
  ⟨fun s t h1 h2 => String.ext (leChars_antisymm s.data t.data h1 h2)⟩

/-- The entries that `WithQuery` adds for a map: one value per key. -/
theorem Values.Add_of_not_mem (v : Values) (key value : String)
    (h : key ∉ v.map Prod.fst) : v.Add key value = v ++ [(key, [value])] := by
  induction v with
  | nil => rfl
  | cons kv rest ih =>
    obtain ⟨k, vs⟩ := kv
    simp only [List.map_cons, List.mem_cons, not_or] at h
    have hk : ¬ k = key := fun e => h.1 e.symm
    simp [Values.Add, hk, ih h.2]

theorem foldl_Add (m : List (String × String)) (acc : Values)
    (hm : (m.map Prod.fst).Nodup) (hd : ∀ k ∈ m.map Prod.fst, k ∉ acc.map Prod.fst) :
    m.foldl (fun ps kv => Values.Add ps kv.1 kv.2) acc =
      acc ++ m.map (fun kv => (kv.1, [kv.2])) := by
  induction m generalizing acc with
  | nil => simp
  | cons kv rest ih =>
    simp only [List.map_cons, List.nodup_cons] at hm
    rw [List.foldl_cons, Values.Add_of_not_mem _ _ _ (hd _ (by simp)), ih _ hm.2]
    · simp
    · intro k hk
      simp only [List.map_append, List.map_cons, List.map_nil, List.mem_append,
        List.mem_singleton, not_or]
      refine ⟨hd k (by simp [hk]), ?_⟩
      rintro rfl
      exact hm.1 hk

theorem lookup_map_singleton (m : List (String × String)) (k : String) :
    List.lookup k (m.map (fun kv => (kv.1, [kv.2]))) = (List.lookup k m).map (fun v => [v]) := by
  induction m with
  | nil => rfl
  | cons kv rest ih =>
    obtain ⟨a, b⟩ := kv
    by_cases h : k == a <;> simp [List.lookup_cons, h, ih]

theorem length_pair_pos (a b : String) : (a ++ "=" ++ b).length > 0 := by
  have h : "=".length = 1 := rfl
  rw [String.length_append, String.length_append, h]
  omega

theorem lookup_of_mem_keys (m : List (String × String)) (k : String)
    (h : k ∈ m.map Prod.fst) : ∃ v, List.lookup k m = some v := by
  cases hl : List.lookup k m with
  | none =>
    rw [List.lookup_eq_none_iff] at hl
    obtain ⟨p, hp, rfl⟩ := List.mem_map.1 h
    exact absurd (hl p hp) (by simp)
  | some v => exact ⟨v, rfl⟩

theorem intercalate_go_eq_foldl (sep acc : String) (ps : List String) :
    String.intercalate.go acc sep ps = ps.foldl (fun b p => b ++ sep ++ p) acc := by
  induction ps generalizing acc with
  | nil => rfl
  | cons p rest ih => simp [String.intercalate.go, ih]

/-- The loop of `Values.Encode` on a map with one value per key, from a
buffer that is not empty. -/
theorem encodeKeys_of_nonempty (m : List (String × String)) (ks : List String) (buf : String)
    (hb : buf.length > 0) (hk : ∀ k ∈ ks, k ∈ m.map Prod.fst) :
    encodeKeys (m.map (fun kv => (kv.1, [kv.2]))) buf ks =
      (ks.map fun k => QueryEscape k ++ "=" ++ QueryEscape ((m.lookup k).getD "")).foldl
        (fun b p => b ++ "&" ++ p) buf := by
  induction ks generalizing buf with
  | nil => rfl
  | cons k rest ih =>
    obtain ⟨v, hv⟩ := lookup_of_mem_keys m k (hk k (by simp))
    simp only [encodeKeys, lookup_map_singleton, hv, Option.map_some', Option.getD_some,
      encodeValues, hb, if_true, List.map_cons, List.foldl_cons]
    rw [ih]
    · simp only [String.append_assoc]
    · have h1 : "=".length = 1 := rfl
      simp only [String.length_append, h1]
      omega
    · exact fun k1 h1 => hk k1 (List.mem_cons_of_mem _ h1)

theorem encode_eq_encodeMap (m : List (String × String)) :
    Values.Encode (m.map (fun kv => (kv.1, [kv.2]))) = encodeMap m := by
  have hkeys : (m.map (fun kv => (kv.1, [kv.2]))).map Prod.fst = m.map Prod.fst := by
    simp [Function.comp_def]
  unfold Values.Encode encodeMap
  rw [hkeys]
  have hmem : ∀ k ∈ (m.map Prod.fst).insertionSort le, k ∈ m.map Prod.fst :=
    fun k hk => (List.mem_insertionSort le).1 hk
  generalize (m.map Prod.fst).insertionSort le = ks at hmem
  cases ks with
  | nil => rfl
  | cons k rest =>
    obtain ⟨v, hv⟩ := lookup_of_mem_keys m k (hmem k (by simp))
    simp only [encodeKeys, lookup_map_singleton, hv, Option.map_some', Option.getD_some,
      encodeValues, List.map_cons, String.intercalate, intercalate_go_eq_foldl]
    rw [encodeKeys_of_nonempty m rest _ (by simpa using length_pair_pos _ _)
      (fun k1 h1 => hmem k1 (List.mem_cons_of_mem _ h1))]
    simp


end url

namespace url

theorem mem_of_lookup_eq_some (m : List (String × String)) (k v : String)
    (h : List.lookup k m = some v) : (k, v) ∈ m := by
  induction m with
  | nil => simp at h
  | cons kv rest ih =>
    obtain ⟨a, b⟩ := kv
    by_cases hk : k == a
    · simp only [List.lookup_cons, hk] at h
      have : k = a := by simpa using hk
      simp_all
    · simp only [List.lookup_cons, hk] at h
      exact List.mem_cons_of_mem _ (ih h)

theorem lookup_eq_some_of_mem (m : List (String × String)) (k v : String)
    (hm : (m.map Prod.fst).Nodup) (h : (k, v) ∈ m) : List.lookup k m = some v := by
  induction m with
  | nil => simp at h
  | cons kv rest ih =>
    obtain ⟨a, b⟩ := kv
    simp only [List.map_cons, List.nodup_cons] at hm
    rcases List.mem_cons.1 h with e | e
    · cases e; simp
    · have hne : ¬ k = a := by
        rintro rfl
        exact hm.1 (List.mem_map.2 ⟨(k, v), e, rfl⟩)
      have hb : (k == a) = false := by simpa using hne
      simp [List.lookup_cons, hb, ih hm.2 e]

theorem lookup_perm (m m1 : List (String × String)) (hp : m1.Perm m)
    (hm : (m.map Prod.fst).Nodup) (k : String) : List.lookup k m1 = List.lookup k m := by
  have hm1 : (m1.map Prod.fst).Nodup := (hp.map Prod.fst).nodup_iff.2 hm
  cases h : List.lookup k m with
  | some v => exact lookup_eq_some_of_mem m1 k v hm1 (hp.mem_iff.2 (mem_of_lookup_eq_some m k v h))
  | none =>
    cases h1 : List.lookup k m1 with
    | none => rfl
    | some v =>
      rw [lookup_eq_some_of_mem m k v hm (hp.mem_iff.1 (mem_of_lookup_eq_some m1 k v h1))] at h
      exact absurd h (by simp)

/-- The encoding of a map does not depend on the order in which its entries
are listed. -/
theorem encodeMap_perm (m m1 : List (String × String)) (hp : m1.Perm m)
    (hm : (m.map Prod.fst).Nodup) : encodeMap m1 = encodeMap m := by
  haveI := le_isTotal
  haveI := le_isTrans
  haveI := le_isAntisymm
  have hk : (m1.map Prod.fst).insertionSort le = (m.map Prod.fst).insertionSort le :=
    List.eq_of_perm_of_sorted
      (((List.perm_insertionSort le _).trans (hp.map Prod.fst)).trans
        (List.perm_insertionSort le _).symm)
      (List.sorted_insertionSort le _) (List.sorted_insertionSort le _)
  unfold encodeMap
  rw [hk]
  congr 2
  funext k
  rw [lookup_perm m m1 hp hm k]

end url

namespace api

theorem withQuery_eq (m : List (String × String)) (hm : (m.map Prod.fst).Nodup)
    (r : http.Request) (u : url.URL) (hu : r.URL = some u) :
    WithQuery m r =
      .ret ({ r with URL := some { u with RawQuery := url.encodeMap m } }, none) := by
  simp only [WithQuery, url.foldl_Add m [] hm (by simp), List.nil_append,
    url.encode_eq_encodeMap, hu]

end api

namespace json

theorem scanBytes_append (s : scanner) (n : Nat) (a b : List Char) :
    scanBytes s n (a ++ b) =
      match scanBytes s n a with
      | .more s1 => scanBytes s1 (n + a.length) b
      | r => r := by
  induction a generalizing s n with
  | nil => simp [scanBytes]
  | cons c cs ih =>
    simp only [List.cons_append, scanBytes, List.length_cons]
    have e : n + (cs.length + 1) = n + 1 + cs.length := by omega
    rw [e]
    split
    · rfl
    · rfl
    · split
      · rfl
      · exact ih _ _
    · split
      · rfl
      · exact ih _ _
    · split
      · rfl
      · exact ih _ _

theorem scanBytes_done_le {s : scanner} {n k : Nat} {a : List Char}
    (h : scanBytes s n a = .done k) : k ≤ n + a.length := by
  induction a generalizing s n with
  | nil => simp [scanBytes] at h
  | cons c cs ih =>
    simp only [scanBytes] at h
    simp only [List.length_cons]
    split at h
    · cases h; omega
    · cases h
    · split at h
      · cases h; omega
      · have := ih h; omega
    · split at h
      · cases h; omega
      · have := ih h; omega
    · split at h
      · cases h; omega
      · have := ih h; omega

theorem foldl_append_data (l : List String) (acc : String) :
    (List.foldl (fun r s => r ++ s) acc l).data =
      acc.data ++ (List.foldl (fun r s => r ++ s) "" l).data := by
  induction l generalizing acc with
  | nil => simp
  | cons a rest ih =>
    rw [List.foldl_cons, List.foldl_cons, ih (acc ++ a), ih ("" ++ a)]
    simp [String.data_append]

theorem join_cons_data (chunk : String) (rest : List String) :
    (String.join (chunk :: rest)).data = chunk.data ++ (String.join rest).data := by
  unfold String.join
  rw [List.foldl_cons, foldl_append_data]
  simp [String.data_append]

/-- Reading a value whose end the scanner finds in the data of the stream: the
value is the text up to that end, however the stream cuts its data. -/
theorem readValue_of_done (chunks : List String) (s : scanner) (buf : List Char)
    (err : Option Error) (k : Nat)
    (h : scanBytes s buf.length (String.join chunks).data = .done k) :
    (readValue s buf err chunks).1 = .ok ((buf ++ (String.join chunks).data).take k) := by
  induction chunks generalizing s buf with
  | nil => simp [String.join, scanBytes] at h
  | cons chunk rest ih =>
    have hj := join_cons_data chunk rest
    rw [hj, scanBytes_append] at h
    rw [hj, readValue]
    cases hc : scanBytes s buf.length chunk.data with
    | done n =>
      rw [hc] at h
      cases h
      have := scanBytes_done_le hc
      simp only []
      rw [← List.append_assoc]
      exact congrArg _ (List.take_append_of_le_length (by simpa using this)).symm
    | error => rw [hc] at h; cases h
    | more s1 =>
      rw [hc] at h
      simp only []
      rw [ih s1 (buf ++ chunk.data) (by simpa using h), List.append_assoc]

end json


namespace json

theorem hexDigit_spec : ∀ d, d < 16 → isHex (hexDigit d) = true ∧ hexVal (hexDigit d) = d := by
  decide

theorem scan_inString_quote (p : ParseState) (ps : List ParseState) (n : Nat) (t : List Char) :
    scanBytes ⟨.stateInString, p :: ps⟩ n ('"' :: t) =
      scanBytes ⟨.stateEndValue, p :: ps⟩ (n + 1) t := by
  simp [scanBytes, scanner.run, stateInString]

theorem scan_inString_lit (ps : List ParseState) (n : Nat) (c : Char) (t : List Char)
    (h1 : c ≠ '"') (h2 : c ≠ '\\') (h3 : ¬ c.toNat < 32) :
    scanBytes ⟨.stateInString, ps⟩ n (c :: t) = scanBytes ⟨.stateInString, ps⟩ (n + 1) t := by
  simp [scanBytes, scanner.run, stateInString, h1, h2, h3]

theorem scan_inString_esc (ps : List ParseState) (n : Nat) (c : Char) (t : List Char)
    (h : c = '"' ∨ c = '\\') :
    scanBytes ⟨.stateInString, ps⟩ n ('\\' :: c :: t) =
      scanBytes ⟨.stateInString, ps⟩ (n + 2) t := by
  rcases h with rfl | rfl <;>
    simp [scanBytes, scanner.run, stateInString, stateInStringEsc]

theorem scan_inString_u (ps : List ParseState) (n : Nat) (a b : Char) (t : List Char)
    (ha : isHex a = true) (hb : isHex b = true) :
    scanBytes ⟨.stateInString, ps⟩ n ('\\' :: 'u' :: '0' :: '0' :: a :: b :: t) =
      scanBytes ⟨.stateInString, ps⟩ (n + 6) t := by
  have h0 : isHex '0' = true := by decide
  simp [scanBytes, scanner.run, stateInString, stateInStringEsc, stateHex, ha, hb, h0]

theorem scan_quoteChar (ps : List ParseState) (n : Nat) (c : Char) (t : List Char) :
    scanBytes ⟨.stateInString, ps⟩ n (quoteChar c ++ t) =
      scanBytes ⟨.stateInString, ps⟩ (n + (quoteChar c).length) t := by
  unfold quoteChar
  split_ifs with h1 h2 h3
  · exact scan_inString_esc ps n _ t (Or.inl rfl)
  · exact scan_inString_esc ps n _ t (Or.inr rfl)
  · exact scan_inString_u ps n _ _ t
      (hexDigit_spec _ (Nat.div_lt_of_lt_mul (by omega))).1
      (hexDigit_spec _ (Nat.mod_lt _ (by omega))).1
  · exact scan_inString_lit ps n c t h1 h2 h3

/-- Inside an object or array the scanner runs through the literal of any
string and stands after its closing quote. -/
theorem scan_quoted (p : ParseState) (ps : List ParseState) (cs : List Char) (n : Nat)
    (t : List Char) :
    scanBytes ⟨.stateInString, p :: ps⟩ n (cs.flatMap quoteChar ++ '"' :: t) =
      scanBytes ⟨.stateEndValue, p :: ps⟩ (n + (cs.flatMap quoteChar).length + 1) t := by
  induction cs generalizing n with
  | nil => simpa using scan_inString_quote p ps n t
  | cons c rest ih =>
    rw [List.flatMap_cons, List.append_assoc, scan_quoteChar, ih, List.length_append]
    congr 1
    omega

end json

namespace json

theorem unquote_quoteChar (out : List Char) (c : Char) (t : List Char) :
    unquoteFrom .lit none out (quoteChar c ++ t) = unquoteFrom .lit none (out ++ [c]) t := by
  unfold quoteChar
  split_ifs with h1 h2 h3
  · subst h1
    simp [unquoteFrom, escChar, flush]
  · subst h2
    simp [unquoteFrom, escChar, flush]
  · have ha := hexDigit_spec (c.toNat / 16) (Nat.div_lt_of_lt_mul (by omega))
    have hb := hexDigit_spec (c.toNat % 16) (Nat.mod_lt _ (by omega))
    have h0 : isHex '0' = true := by decide
    have hv0 : hexVal '0' = 0 := by decide
    have hs : isSurrogate c.toNat = false := by
      simp only [isSurrogate, Bool.and_eq_false_imp, decide_eq_true_eq, decide_eq_false_iff_not]
      omega
    have hc : Char.ofNat c.toNat = c := Char.ofNat_toNat c
    have hn : c.toNat / 16 * 16 + c.toNat % 16 = c.toNat := by omega
    simp [unquoteFrom, h0, hv0, ha.1, ha.2, hb.1, hb.2, emitU, hs, hc, hn]
  · simp [unquoteFrom, h1, h2, h3, flush]

/-- Unquoting the literal of a string gives the string back. -/
theorem unquote_quoted (cs out t : List Char) :
    unquoteFrom .lit none out (cs.flatMap quoteChar ++ '"' :: t) = some (String.mk (out ++ cs), t) := by
  induction cs generalizing out with
  | nil => simp [unquoteFrom, flush]
  | cons c rest ih =>
    rw [List.flatMap_cons, List.append_assoc, unquote_quoteChar, ih]
    simp

end json

namespace json

/-- The text of the envelope, piece by piece. -/
theorem envelope_data (X Y : String) :
    (api.envelope X Y).data =
      '{' :: '"' :: ("error".data.flatMap quoteChar ++ '"' :: ':' :: '{' :: '"' ::
        ("code".data.flatMap quoteChar ++ '"' :: ':' :: '"' ::
          (X.data.flatMap quoteChar ++ '"' :: ',' :: '"' ::
            ("message".data.flatMap quoteChar ++ '"' :: ':' :: '"' ::
              (Y.data.flatMap quoteChar ++ ['"', '}', '}']))))) := by
  have e1 : "error".data.flatMap quoteChar = ['e', 'r', 'r', 'o', 'r'] := by decide
  have e2 : "code".data.flatMap quoteChar = ['c', 'o', 'd', 'e'] := by decide
  have e3 : "message".data.flatMap quoteChar = ['m', 'e', 's', 's', 'a', 'g', 'e'] := by decide
  rw [e1, e2, e3]
  simp [api.envelope, quote, String.data_append]

theorem parse_nested (k1 k2 k3 x y : List Char) (fuel : Nat) :
    parseValue (fuel + 6)
      ('{' :: '"' :: (k1.flatMap quoteChar ++ '"' :: ':' :: '{' :: '"' ::
        (k2.flatMap quoteChar ++ '"' :: ':' :: '"' ::
          (x.flatMap quoteChar ++ '"' :: ',' :: '"' ::
            (k3.flatMap quoteChar ++ '"' :: ':' :: '"' ::
              (y.flatMap quoteChar ++ ['"', '}', '}'])))))) =
      some (.object [(String.mk k1,
        .object [(String.mk k2, .string (String.mk x)), (String.mk k3, .string (String.mk y))])],
        []) := by
  have s1 : isSpace '{' = false := by decide
  have s2 : isSpace '"' = false := by decide
  have s3 : isSpace ':' = false := by decide
  have s4 : isSpace ',' = false := by decide
  have s5 : isSpace '}' = false := by decide
  simp [parseValue, parseMembers, skipSpace, s1, s2, s3, s4, s5, unquote_quoted]

theorem unmarshal_envelope (X Y : String) (a : api.apiError) :
    unmarshal (.object [("error", .object [("code", .string X), ("message", .string Y)])]) a =
      ({ Response := { Code := X, Message := Y } }, none) := by
  have h : ¬ foldName "message" = foldName "code" := by decide
  simp [unmarshal, unmarshalMembers, unmarshalResponse, h]

theorem scan_nested (k1 k2 k3 x y : List Char) :
    scanBytes scanner.reset 0
      ('{' :: '"' :: (k1.flatMap quoteChar ++ '"' :: ':' :: '{' :: '"' ::
        (k2.flatMap quoteChar ++ '"' :: ':' :: '"' ::
          (x.flatMap quoteChar ++ '"' :: ',' :: '"' ::
            (k3.flatMap quoteChar ++ '"' :: ':' :: '"' ::
              (y.flatMap quoteChar ++ ['"', '}', '}'])))))) =
      .done ('{' :: '"' :: (k1.flatMap quoteChar ++ '"' :: ':' :: '{' :: '"' ::
        (k2.flatMap quoteChar ++ '"' :: ':' :: '"' ::
          (x.flatMap quoteChar ++ '"' :: ',' :: '"' ::
            (k3.flatMap quoteChar ++ '"' :: ':' :: '"' ::
              (y.flatMap quoteChar ++ ['"', '}', '}'])))))).length := by
  have s1 : isSpace '{' = false := by decide
  have s2 : isSpace '"' = false := by decide
  have s3 : isSpace ':' = false := by decide
  have s4 : isSpace ',' = false := by decide
  have s5 : isSpace '}' = false := by decide
  have s6 : isSpace ' ' = true := by decide
  simp [scanBytes, scanner.run, scanner.reset, stateBeginValue, scanner.pushParseState,
    maxNestingDepth, stateBeginStringOrEmpty, stateBeginString, stateEndValue,
    scanner.popParseState, stateEndTop, s1, s2, s3, s4, s5, s6, scan_quoted]
  omega

end json

namespace json

/-- Decoding a stream whose data is the envelope gives its code and message,
however the stream cuts the data and whatever the target held. -/
theorem Decode_envelope (ahead : Nat) (r : io.Reader) (X Y : String) (a : api.apiError)
    (h : r.content = api.envelope X Y) :
    (Decode ahead r a).1 = { Response := { Code := X, Message := Y } } ∧
      (Decode ahead r a).2.1 = none := by
  have hd : (String.join r.chunks).data = (api.envelope X Y).data := congrArg String.data h
  have hscan : scanBytes scanner.reset ([] : List Char).length (String.join r.chunks).data =
      .done (api.envelope X Y).data.length := by
    rw [hd, envelope_data]
    exact scan_nested _ _ _ _ _
  have hr := readValue_of_done r.chunks scanner.reset [] r.err _ hscan
  rw [List.nil_append, hd, List.take_length] at hr
  obtain ⟨k, hk⟩ : ∃ k, (api.envelope X Y).data.length + 1 = k + 6 := by
    refine ⟨(api.envelope X Y).data.length - 5, ?_⟩
    rw [envelope_data]
    simp only [List.length_cons, List.length_append]
    omega
  have hp : parseValue ((api.envelope X Y).data.length + 1) (api.envelope X Y).data =
      some (.object [("error", .object [("code", .string X), ("message", .string Y)])], []) := by
    rw [hk, envelope_data]
    exact parse_nested _ _ _ _ _ k
  unfold Decode
  cases hrv : readValue scanner.reset [] r.err r.chunks with
  | mk res rest =>
    rw [hrv] at hr
    simp only [] at hr
    subst hr
    simp only [hp, unmarshal_envelope]
    simp

end json

namespace api

theorem newAPIError_envelope (ahead : Nat) (resp : http.Response) (X Y : String)
    (h : resp.Body.content = envelope X Y) :
    (newAPIError ahead resp).1 =
      some (.apiError { Response := { Code := X, Message := Y } }) := by
  obtain ⟨h1, h2⟩ :=
    json.Decode_envelope ahead resp.Body X Y { Response := { Code := "", Message := "" } } h
  unfold newAPIError
  cases hd : json.Decode ahead resp.Body { Response := { Code := "", Message := "" } } with
  | mk a rest =>
    obtain ⟨e, body1⟩ := rest
    rw [hd] at h1 h2
    simp only [] at h1 h2
    subst h1 h2
    rfl

end api

namespace json

theorem Decode_err (ahead : Nat) (r : io.Reader) (a : api.apiError) :
    (Decode ahead r a).2.2.err = r.err := by
  unfold Decode
  split
  · rfl
  · split <;> rfl

end json

namespace api

/-- The three returns of `newAPIError`, by what the decoder reports and what
the body reports at its close. -/
theorem newAPIError_cases (ahead : Nat) (resp : http.Response) :
    match json.Decode ahead resp.Body { Response := { Code := "", Message := "" } } with
    | (a, none, _) => (newAPIError ahead resp).1 = some (.apiError a)
    | (_, some _, body1) =>
      match resp.Body.err with
      | none => (newAPIError ahead resp).1 =
          some (.errorString (resp.Status ++ ": " ++ String.join body1.chunks))
      | some e => (newAPIError ahead resp).1 =
          some (.wrapError (resp.Status ++ ": unable to decode error response: " ++ e.Error) e) := by
  have he := json.Decode_err ahead resp.Body { Response := { Code := "", Message := "" } }
  unfold newAPIError
  cases hd : json.Decode ahead resp.Body { Response := { Code := "", Message := "" } } with
  | mk a rest =>
    obtain ⟨e, body1⟩ := rest
    rw [hd] at he
    simp only [] at he
    cases e with
    | none => rfl
    | some e1 =>
      simp only [io.ReadAll, he]
      cases hb : resp.Body.err <;> rfl

/-- What the decoder decodes does not depend on the status line. -/
theorem newAPIError_status (ahead : Nat) (resp : http.Response) (status : String) (a : api.apiError)
    (h : (newAPIError ahead resp).1 = some (.apiError a)) :
    (newAPIError ahead { resp with Status := status }).1 = some (.apiError a) := by
  unfold newAPIError at h ⊢
  cases hd : json.Decode ahead resp.Body { Response := { Code := "", Message := "" } } with
  | mk a1 rest =>
    obtain ⟨e, body1⟩ := rest
    rw [hd] at h
    simp only [hd]
    cases e with
    | none => exact h
    | some e1 =>
      simp only [] at h
      cases hr : io.ReadAll body1 with
      | mk b rest2 =>
        obtain ⟨e2, body2⟩ := rest2
        rw [hr] at h
        cases e2 <;> simp at h

end api


namespace url

theorem toNat_lt (c : Char) : c.toNat < 0x110000 := by
  have := c.valid
  simp only [UInt32.isValidChar, Nat.isValidChar] at this
  simp only [Char.toNat]
  omega

theorem toNat_lt_of_isAlphanum (c : Char) (h : c.isAlphanum = true) : c.toNat < 128 := by
  simp only [Char.isAlphanum, Char.isAlpha, Char.isUpper, Char.isLower, Char.isDigit,
    Bool.or_eq_true, Bool.and_eq_true, decide_eq_true_eq, ge_iff_le, UInt32.le_def,
    BitVec.le_def] at h
  simp only [Char.toNat, UInt32.toNat]
  have e1 : (90 : UInt32).toBitVec.toNat = 90 := rfl
  have e2 : (122 : UInt32).toBitVec.toNat = 122 := rfl
  have e3 : (57 : UInt32).toBitVec.toNat = 57 := rfl
  rw [e1, e2, e3] at h
  omega

theorem toNat_lt_of_unreserved (c : Char) (h : unreserved c = true) : c.toNat < 128 := by
  simp only [unreserved, Bool.or_eq_true, decide_eq_true_eq] at h
  rcases h with (((h | h) | h) | h) | h
  · exact toNat_lt_of_isAlphanum c h
  all_goals subst h; decide

theorem shouldEscape_eq (c : Char) : shouldEscape c = !unreserved c := by
  simp only [shouldEscape, unreserved]
  cases c.isAlphanum <;> cases decide (c = '-') <;> cases decide (c = '_') <;>
    cases decide (c = '.') <;> cases decide (c = '~') <;> rfl

theorem upperhex_spec :
    ∀ d, d < 16 → unhex (upperhex d) = some d ∧ unreserved (upperhex d) = true := by
  decide

theorem utf8Bytes_lt (c : Char) : ∀ b ∈ utf8Bytes c, b < 256 := by
  have hc := toNat_lt c
  intro b hb
  simp only [utf8Bytes] at hb
  split_ifs at hb <;> simp only [List.mem_cons, List.mem_singleton, List.not_mem_nil, or_false] at hb <;>
    omega

theorem unescapeBytes_pct (b : Nat) (hb : b < 256) (t : List Char) :
    unescapeFrom .lit (pct b ++ t) = (unescapeFrom .lit t).map (fun bs => b :: bs) := by
  have h1 := upperhex_spec (b / 16) (by omega)
  have h2 := upperhex_spec (b % 16) (by omega)
  have e : 16 * (b / 16) + b % 16 = b := by omega
  simp only [pct, List.cons_append, List.nil_append, unescapeFrom, if_true, h1.1, h2.1, e]
  rfl

theorem unescapeBytes_flatMap_pct (bs : List Nat) (h : ∀ b ∈ bs, b < 256) (t : List Char) :
    unescapeFrom .lit (bs.flatMap pct ++ t) = (unescapeFrom .lit t).map (fun r => bs ++ r) := by
  induction bs with
  | nil => simp
  | cons b rest ih =>
    rw [List.flatMap_cons, List.append_assoc, unescapeBytes_pct b (h b (by simp)),
      ih (fun x hx => h x (List.mem_cons_of_mem _ hx))]
    cases unescapeFrom .lit t <;> rfl

theorem unescapeBytes_escapeChar (c : Char) (t : List Char) :
    unescapeFrom .lit (escapeChar c ++ t) = (unescapeFrom .lit t).map (fun r => utf8Bytes c ++ r) := by
  unfold escapeChar
  split_ifs with h1 h2 h3
  · subst h3
    have hp : ¬ '+' = '%' := by decide
    simp only [List.cons_append, List.nil_append, unescapeFrom, hp, if_false, if_true]
    rfl
  · rw [unescapeBytes_pct c.toNat (by omega)]
    simp [utf8Bytes, h1]
  · have hp : c ≠ '%' := by rintro rfl; exact h2 (by decide)
    have hq : c ≠ '+' := by rintro rfl; exact h2 (by decide)
    simp only [List.cons_append, List.nil_append, unescapeFrom, hp, hq, if_false]
    rfl
  · exact unescapeBytes_flatMap_pct _ (utf8Bytes_lt c) t

theorem unescapeBytes_escape (cs : List Char) :
    unescapeFrom .lit (cs.flatMap escapeChar) = some (cs.flatMap utf8Bytes) := by
  induction cs with
  | nil => rfl
  | cons c rest ih =>
    rw [List.flatMap_cons, unescapeBytes_escapeChar, ih]
    rfl

theorem utf8Decode_utf8Bytes (c : Char) (bs : List Nat) :
    utf8DecodeFrom .start (utf8Bytes c ++ bs) =
      (utf8DecodeFrom .start bs).map (fun cs => c :: cs) := by
  have hc := toNat_lt c
  have ho : ∀ n, n = c.toNat → Char.ofNat n = c := fun n hn => hn ▸ Char.ofNat_toNat c
  have hcont : ∀ n, n < 64 → isCont (0x80 + n) = true := by
    intro n hn
    simp only [isCont, Bool.and_eq_true, decide_eq_true_eq]
    omega
  unfold utf8Bytes
  simp only []
  split_ifs with h1 h2 h3
  · simp only [List.cons_append, List.nil_append, utf8DecodeFrom, h1, if_true, Char.ofNat_toNat]
    rfl
  · have a1 : ¬ 0xC0 + c.toNat / 64 < 0x80 := by omega
    have a2 : ¬ 0xC0 + c.toNat / 64 < 0xC0 := by omega
    have a3 : 0xC0 + c.toNat / 64 < 0xE0 := by omega
    simp only [List.cons_append, List.nil_append, utf8DecodeFrom, a1, a2, a3,
      hcont _ (Nat.mod_lt _ (by decide)), if_true, if_false]
    have e : (0xC0 + c.toNat / 64 - 0xC0) * 64 + (0x80 + c.toNat % 64 - 0x80) = c.toNat := by
      omega
    rw [e, Char.ofNat_toNat]
    rfl
  · have a1 : ¬ 0xE0 + c.toNat / 4096 < 0x80 := by omega
    have a2 : ¬ 0xE0 + c.toNat / 4096 < 0xC0 := by omega
    have a3 : ¬ 0xE0 + c.toNat / 4096 < 0xE0 := by omega
    have a4 : 0xE0 + c.toNat / 4096 < 0xF0 := by omega
    simp only [List.cons_append, List.nil_append, utf8DecodeFrom, a1, a2, a3, a4,
      hcont _ (Nat.mod_lt _ (by decide)), if_true, if_false]
    have e : ((0xE0 + c.toNat / 4096 - 0xE0) * 64 + (0x80 + c.toNat / 64 % 64 - 0x80)) * 64 +
        (0x80 + c.toNat % 64 - 0x80) = c.toNat := by
      omega
    rw [e, Char.ofNat_toNat]
    rfl
  · have a1 : ¬ 0xF0 + c.toNat / 262144 < 0x80 := by omega
    have a2 : ¬ 0xF0 + c.toNat / 262144 < 0xC0 := by omega
    have a3 : ¬ 0xF0 + c.toNat / 262144 < 0xE0 := by omega
    have a4 : ¬ 0xF0 + c.toNat / 262144 < 0xF0 := by omega
    have a5 : 0xF0 + c.toNat / 262144 < 0xF8 := by omega
    simp only [List.cons_append, List.nil_append, utf8DecodeFrom, a1, a2, a3, a4, a5,
      hcont _ (Nat.mod_lt _ (by decide)), if_true, if_false]
    have e : (((0xF0 + c.toNat / 262144 - 0xF0) * 64 + (0x80 + c.toNat / 4096 % 64 - 0x80)) * 64 +
        (0x80 + c.toNat / 64 % 64 - 0x80)) * 64 + (0x80 + c.toNat % 64 - 0x80) = c.toNat := by
      omega
    rw [e, Char.ofNat_toNat]
    rfl

theorem utf8Decode_flatMap (cs : List Char) :
    utf8DecodeFrom .start (cs.flatMap utf8Bytes) = some cs := by
  induction cs with
  | nil => rfl
  | cons c rest ih =>
    rw [List.flatMap_cons, utf8Decode_utf8Bytes, ih]
    rfl

/-- Unescaping an escaped string gives the string back. -/
theorem QueryUnescape_QueryEscape (s : String) : QueryUnescape (QueryEscape s) = some s := by
  simp only [QueryUnescape, QueryEscape, unescapeBytes_escape, utf8Decode_flatMap]
  rfl

theorem mem_pct (b : Nat) (hb : b < 256) (c : Char) (h : c ∈ pct b) :
    unreserved c = true ∨ c = '+' ∨ c = '%' := by
  simp only [pct, List.mem_cons, List.mem_singleton, List.not_mem_nil, or_false] at h
  rcases h with h | h | h
  · exact Or.inr (Or.inr h)
  · exact Or.inl (h ▸ (upperhex_spec (b / 16) (by omega)).2)
  · exact Or.inl (h ▸ (upperhex_spec (b % 16) (by omega)).2)

/-- An escaped string holds unreserved characters, `+` and `%` only. -/
theorem QueryEscape_chars (s : String) (c : Char) (h : c ∈ (QueryEscape s).data) :
    unreserved c = true ∨ c = '+' ∨ c = '%' := by
  simp only [QueryEscape, List.mem_flatMap] at h
  obtain ⟨a, -, ha⟩ := h
  unfold escapeChar at ha
  split_ifs at ha with h1 h2 h3
  · simp only [List.mem_singleton] at ha
    exact Or.inr (Or.inl ha)
  · exact mem_pct _ (by omega) c ha
  · simp only [List.mem_singleton] at ha
    subst ha
    left
    rw [shouldEscape_eq] at h2
    simpa using h2
  · simp only [List.mem_flatMap] at ha
    obtain ⟨b, hb, hc⟩ := ha
    exact mem_pct b (utf8Bytes_lt a b hb) c hc

theorem QueryEscape_append (s t : String) :
    QueryEscape (s ++ t) = QueryEscape s ++ QueryEscape t := by
  apply String.ext
  simp [QueryEscape, String.data_append, List.flatMap_append]

theorem QueryEscape_unreserved (c : Char) (h : unreserved c = true) :
    QueryEscape (String.singleton c) = String.singleton c := by
  have h1 := toNat_lt_of_unreserved c h
  have h2 : shouldEscape c = false := by rw [shouldEscape_eq, h]; rfl
  apply String.ext
  show (String.singleton c).data.flatMap escapeChar = (String.singleton c).data
  have hd : (String.singleton c).data = [c] := rfl
  rw [hd, List.flatMap_cons, List.flatMap_nil, List.append_nil, escapeChar, if_pos h1, h2]
  rfl

end url

namespace url

theorem char_lt_iff (a b : Char) : a < b ↔ a.toNat < b.toNat := by
  simp only [Char.lt_def, UInt32.lt_def, BitVec.lt_def, Char.toNat, UInt32.toNat]

theorem char_eq_of_toNat (a b : Char) (h : a.toNat = b.toNat) : a = b :=
  Char.ext (UInt32.ext (by simpa [Char.toNat, UInt32.toNat] using h))

theorem lt_iff_leChars (a b : List Char) : b < a ↔ leChars a b = false := by
  induction a generalizing b with
  | nil =>
    constructor
    · intro h; cases h
    · intro h; simp [leChars] at h
  | cons x xs ih =>
    cases b with
    | nil => exact ⟨fun _ => rfl, fun _ => List.Lex.nil⟩
    | cons y ys =>
      simp only [leChars, Bool.or_eq_false_iff, Bool.and_eq_false_imp, decide_eq_false_iff_not,
        decide_eq_true_eq]
      constructor
      · intro h
        cases h with
        | cons h1 => exact ⟨by omega, fun _ => (ih ys).1 h1⟩
        | rel h1 =>
          have := (char_lt_iff y x).1 h1
          exact ⟨by omega, fun e => by omega⟩
      · rintro ⟨h1, h2⟩
        by_cases e : x.toNat = y.toNat
        · have exy := char_eq_of_toNat x y e
          subst exy
          exact List.Lex.cons ((ih ys).2 (h2 rfl))
        · exact List.Lex.rel ((char_lt_iff y x).2 (by omega))

/-- The order `le` is the order of strings. -/
theorem le_iff (s t : String) : le s t ↔ s ≤ t := by
  rw [String.le_iff_toList_le, ← not_lt]
  show leChars s.data t.data = true ↔ ¬ t.data < s.data
  rw [lt_iff_leChars]
  simp

end url
/-! ## The claims -/

/-- C1: on a client whose rate-limit snapshot is initialised, `validateResponse`
answers status 429 with an error whose text contains "temporarily blocked", 401
with "not authorized", 400 with "not understood" and 404 with "not found"; in
each of the four cases the error is the same whatever the body of the response
is, and the body is handed back unread. -/
theorem validateResponse_known_status (c : api.Client) (hc : c.Initialised)
    (resp : http.Response) (now : time.Time) :
    (resp.StatusCode = 429 → c.RejectsWith resp now "temporarily blocked") ∧
    (resp.StatusCode = 401 → c.RejectsWith resp now "not authorized") ∧
    (resp.StatusCode = 400 → c.RejectsWith resp now "not understood") ∧
    (resp.StatusCode = 404 → c.RejectsWith resp now "not found") := by
  obtain ⟨rl, m, hrl, hm⟩ := hc
  have hu := api.updateRateLimitAmounts_of_initialised hrl hm resp now
  have hb : ∀ body : io.Reader, api.Client.updateRateLimitAmounts c { resp with Body := body } now
      = _ := fun body => (api.updateRateLimitAmounts_body resp body now).trans hu
  refine ⟨fun h => ?_, fun h => ?_, fun h => ?_, fun h => ?_⟩
  · refine api.rejectsWith_of_branch
      "your API key is being temporarily blocked from making further requests. The block will automatically be lifted by waiting an hour: "
      hu (fun ahead body => ?_) (by decide)
    rw [api.validateResponse_of_update ahead (hb body)]; simp [h]
  · refine api.rejectsWith_of_branch "not authorized for api endpoint: "
      hu (fun ahead body => ?_) (by decide)
    rw [api.validateResponse_of_update ahead (hb body)]; simp [h]
  · refine api.rejectsWith_of_branch "request to api was not understood: "
      hu (fun ahead body => ?_) (by decide)
    rw [api.validateResponse_of_update ahead (hb body)]; simp [h]
  · refine api.rejectsWith_of_branch "api endpoint was not found: "
      hu (fun ahead body => ?_) (by decide)
    rw [api.validateResponse_of_update ahead (hb body)]; simp [h]

theorem validateResponse_known_status_witness :
    sample.client.RejectsWith (sample.response "429 Too Many Requests" 429 ["slow down"]) 5
      "temporarily blocked" :=
  (validateResponse_known_status sample.client ⟨_, _, rfl, rfl⟩
    (sample.response "429 Too Many Requests" 429 ["slow down"]) 5).1 rfl

/-- C2: on a client whose rate-limit snapshot is initialised, `validateResponse`
returns, and it returns no error if and only if the status code is below 400. -/
theorem validateResponse_error_iff (ahead : Nat) (c : api.Client) (hc : c.Initialised)
    (resp : http.Response) (now : time.Time) :
    ∃ c1 resp1 err,
      c.validateResponse ahead resp now = .ret (c1, resp1, err) ∧
      (err = none ↔ resp.StatusCode < 400) := by
  obtain ⟨rl, m, hrl, hm⟩ := hc
  rw [api.validateResponse_of_update ahead
    (api.updateRateLimitAmounts_of_initialised hrl hm resp now)]
  have hn := api.newAPIError_isSome ahead resp
  split_ifs with h1 h2 h3 h4 h5
  · exact ⟨_, _, _, rfl, by simp [h1]⟩
  · exact ⟨_, _, _, rfl, by simp [h1]⟩
  · exact ⟨_, _, _, rfl, by simp [h1]⟩
  · exact ⟨_, _, _, rfl, by simp [h1]⟩
  · exact ⟨_, _, _, rfl, by simp [h1]⟩
  · refine ⟨_, _, _, rfl, ?_⟩
    cases hq : (api.newAPIError ahead resp).1 with
    | none => simp [hq] at hn
    | some e => simp [h1]

theorem validateResponse_error_iff_witness :
    ∃ c1 resp1 err,
      sample.client.validateResponse 1 (sample.response "503 Service Unavailable" 503 ["busy"]) 5 =
        .ret (c1, resp1, err) ∧
      (err = none ↔ (sample.response "503 Service Unavailable" 503 ["busy"]).StatusCode < 400) :=
  validateResponse_error_iff 1 sample.client ⟨_, _, rfl, rfl⟩
    (sample.response "503 Service Unavailable" 503 ["busy"]) 5

/-- C3 (how the code behaves): `New` leaves the rate-limit snapshot of the
client nil, so on the client of `New`, for any token it accepts,
`validateResponse` panics on a nil dereference for every response, and so
does `Do` whenever the transport delivers a response. -/
theorem new_client_validateResponse_panics (ahead : Nat) (token : String)
    (resp : http.Response) (now : time.Time)
    (transport : http.Request → Except (Option http.Response × Error) http.Response)
    (req : http.Request) :
    match api.New token with
    | (some c, _) =>
      c.rateLimit = none ∧
      c.validateResponse ahead resp now = .panic nilDereference ∧
      (transport req = .ok resp → c.Do ahead transport req now = .panic nilDereference)
    | (none, _) => token = "" := by
  unfold api.New
  by_cases ht : token = ""
  · simp [ht]
  · simp only [ht, if_false]
    refine ⟨by simp, by simp [api.Client.validateResponse, api.Client.updateRateLimitAmounts],
      fun h => ?_⟩
    simp [api.Client.Do, h, api.Client.validateResponse, api.Client.updateRateLimitAmounts]

/-- C4: on a client whose rate-limit snapshot is initialised, for a response of
any status code, `validateResponse` returns with the snapshot's `limit` equal
to the response's `X-RateLimit-Limit` header value and `limitRemaining` equal
to its `X-RateLimit-Remaining` header value (`Header.Get`: the first value under
the canonical key, the empty string when there is no entry), the time stamp
set to the current time and the mutex kept, whatever the snapshot held
before and whether or not an error is returned. -/
theorem validateResponse_updates_snapshot (ahead : Nat) (c : api.Client) (hc : c.Initialised)
    (resp : http.Response) (now : time.Time) :
    ∃ c1 resp1 err rl1,
      c.validateResponse ahead resp now = .ret (c1, resp1, err) ∧
      c1.rateLimit = some rl1 ∧
      rl1.limit = resp.Header.Get "X-RateLimit-Limit" ∧
      rl1.limitRemaining = resp.Header.Get "X-RateLimit-Remaining" ∧
      rl1.lastUpdated = now ∧
      (List.lookup "X-Ratelimit-Limit" resp.Header = none → rl1.limit = "") ∧
      (List.lookup "X-Ratelimit-Remaining" resp.Header = none → rl1.limitRemaining = "") ∧
      (∀ v vs, List.lookup "X-Ratelimit-Limit" resp.Header = some (v :: vs) → rl1.limit = v) ∧
      (∀ v vs, List.lookup "X-Ratelimit-Remaining" resp.Header = some (v :: vs) →
        rl1.limitRemaining = v) ∧
      c1.Initialised := by
  obtain ⟨rl, m, hrl, hm⟩ := hc
  rw [api.validateResponse_of_update ahead
    (api.updateRateLimitAmounts_of_initialised hrl hm resp now)]
  have k1 : http.CanonicalMIMEHeaderKey "X-RateLimit-Limit" = "X-Ratelimit-Limit" := by decide
  have k2 : http.CanonicalMIMEHeaderKey "X-RateLimit-Remaining" = "X-Ratelimit-Remaining" := by
    decide
  have key : ∃ rl1 : api.RateLimit,
      (some { rl with
          limit := resp.Header.Get api.headerRateLimit
          limitRemaining := resp.Header.Get api.headerRateLimitRemaining
          lastUpdated := now } : Option api.RateLimit) = some rl1 ∧
      rl1.limit = resp.Header.Get "X-RateLimit-Limit" ∧
      rl1.limitRemaining = resp.Header.Get "X-RateLimit-Remaining" ∧
      rl1.lastUpdated = now ∧
      (List.lookup "X-Ratelimit-Limit" resp.Header = none → rl1.limit = "") ∧
      (List.lookup "X-Ratelimit-Remaining" resp.Header = none → rl1.limitRemaining = "") ∧
      (∀ v vs, List.lookup "X-Ratelimit-Limit" resp.Header = some (v :: vs) → rl1.limit = v) ∧
      (∀ v vs, List.lookup "X-Ratelimit-Remaining" resp.Header = some (v :: vs) →
        rl1.limitRemaining = v) ∧
      rl1.RWMutex = some m := by
    refine ⟨_, rfl, rfl, rfl, rfl, ?_, ?_, ?_, ?_, hm⟩
    · intro h; simp [http.Header.Get, api.headerRateLimit, k1, h]
    · intro h; simp [http.Header.Get, api.headerRateLimitRemaining, k2, h]
    · intro v vs h; simp [http.Header.Get, api.headerRateLimit, k1, h]
    · intro v vs h; simp [http.Header.Get, api.headerRateLimitRemaining, k2, h]
  obtain ⟨rl1, e1, p1, p2, p3, p4, p5, p6, p7, p8⟩ := key
  split_ifs <;>
    exact ⟨_, _, _, rl1, rfl, e1, p1, p2, p3, p4, p5, p6, p7, ⟨rl1, m, e1, p8⟩⟩

theorem validateResponse_updates_snapshot_witness :
    ∃ c1 resp1 err rl1,
      sample.client.validateResponse 0 (sample.response "500 Internal Server Error" 500 ["oops"])
          5 = .ret (c1, resp1, err) ∧
      c1.rateLimit = some rl1 ∧ rl1.limit = "1000" ∧ rl1.limitRemaining = "999" ∧
      rl1.lastUpdated = 5 :=
  match validateResponse_updates_snapshot 0 sample.client ⟨_, _, rfl, rfl⟩
    (sample.response "500 Internal Server Error" 500 ["oops"]) 5 with
  | ⟨c1, resp1, err, rl1, h, h1, h2, h3, h4, _⟩ =>
    ⟨c1, resp1, err, rl1, h, h1, h2.trans (by decide), h3.trans (by decide), h4⟩

/-- C8: `New` of package `api` returns an error, and no client, if and only if
the token is empty; for a non-empty token it returns no error and a client
that holds this token and the parsed base URL, which prints as
`https://developer.nps.gov/api/v1/`. `New` of package `nps` returns an error
exactly when `api.New` does (the same error), and a client exactly when it
does not. -/
theorem new_error_iff (token : String) :
    ((api.New token).2.isSome ↔ token = "") ∧
    ((api.New token).1 = none ↔ token = "") ∧
    (token ≠ "" →
      ∃ c u, api.New token = (some c, none) ∧ c.token = token ∧ c.url = some u ∧
        u.String = "https://developer.nps.gov/api/v1/") ∧
    (nps.New token).2 = (api.New token).2 ∧
    ((nps.New token).2.isSome ↔ (api.New token).2.isSome) ∧
    ((nps.New token).1 = none ↔ (nps.New token).2.isSome) := by
  by_cases ht : token = ""
  · subst ht
    simp [api.New, nps.New]
  · have hp : ∃ u, url.Parse api.defaultBaseUrl = some u ∧
        u.String = "https://developer.nps.gov/api/v1/" := by decide
    obtain ⟨u, hu, hs⟩ := hp
    simp [api.New, nps.New, ht, hu, hs]

theorem new_error_iff_witness :
    ∃ c u, api.New "demo-key" = (some c, none) ∧ c.token = "demo-key" ∧ c.url = some u ∧
      u.String = "https://developer.nps.gov/api/v1/" :=
  (new_error_iff "demo-key").2.2.1 (by decide)

/-- C9: when the client's URL is set and `url.JoinPath` and
`http.NewRequestWithContext` succeed, `NewRequest` starts from the request of
`http.NewRequestWithContext` with the header `Accept` set to
`application/json; charset=utf-8` and `X-Api-Key` set to the client's token and
nothing else changed, and applies the options to it in the order given: if
the options before some option all succeed and that option fails, `NewRequest`
returns no request and that option's error, whatever options follow it; if
all succeed it returns the request as the last option leaves it, which with
no options is the base request itself. -/
theorem newRequest_applies_options (std : api.Std) (c : api.Client) (ctx : context.Context)
    (method path : String) (base : url.URL) (u : String) (req : http.Request)
    (hurl : c.url = some base) (hjoin : std.JoinPath base.String path = .ok u)
    (hreq : std.NewRequestWithContext ctx method u = .ok req) :
    (api.baseRequest c req).Header.Get "Accept" = "application/json; charset=utf-8" ∧
    (api.baseRequest c req).Header.Get "X-Api-Key" = c.token ∧
    (api.baseRequest c req).Method = req.Method ∧
    (api.baseRequest c req).URL = req.URL ∧
    (api.baseRequest c req).Body = req.Body ∧
    (api.baseRequest c req).ctx = req.ctx ∧
    c.NewRequest std ctx method path [] = .ret (some (api.baseRequest c req), none) ∧
    (∀ options : List api.ReqOption, api.AllSucceed options (api.baseRequest c req) →
      c.NewRequest std ctx method path options =
        .ret (some (api.applied options (api.baseRequest c req)), none)) ∧
    (∀ (pre : List api.ReqOption) (o : api.ReqOption) (post : List api.ReqOption)
        (req1 : http.Request) (err : Error),
      api.AllSucceed pre (api.baseRequest c req) →
      o (api.applied pre (api.baseRequest c req)) = .ret (req1, some err) →
      c.NewRequest std ctx method path (pre ++ o :: post) = .ret (none, some err)) := by
  have hN : ∀ options, c.NewRequest std ctx method path options =
      api.applyOptions options (api.baseRequest c req) := by
    intro options
    simp [api.Client.NewRequest, hurl, hjoin, hreq, api.baseRequest, api.headerApiKey]
  refine ⟨?_, ?_, rfl, rfl, rfl, rfl, ?_, ?_, ?_⟩
  · exact http.Header.Get_Set_other _ _ _ _ _ (by decide)
  · exact http.Header.Get_Set_self _ _ _
  · rw [hN]; rfl
  · intro options h
    rw [hN, api.applyOptions_of_allSucceed options _ h]
  · intro pre o post req1 err h he
    rw [hN, api.applyOptions_first_failure pre o post _ req1 err h he]

theorem newRequest_applies_options_witness :
    sample.client.NewRequest sample.std 0 "GET" "parks"
        ([sample.setMethod "POST"] ++ sample.failing "no" :: [sample.failing "later"]) =
      .ret (none, some (.errorString "no")) :=
  (newRequest_applies_options sample.std sample.client 0 "GET" "parks"
    ⟨"https", "developer.nps.gov", "/api/v1/", "", ""⟩
    "https://developer.nps.gov/api/v1/parks" { sample.request with ctx := 0, Method := "GET" }
    (by decide) (by decide) rfl).2.2.2.2.2.2.2.2
    [sample.setMethod "POST"] (sample.failing "no") [sample.failing "later"]
    _ (.errorString "no") ⟨rfl, trivial⟩ rfl


/-- C10, as stated, fails: on a request whose `URL` is nil, `WithQuery` does not
return; the assignment to `r.URL.RawQuery` panics on a nil dereference. -/
theorem withQuery_nil_url_panics :
    api.WithQuery [("q", "yellowstone")] { sample.request with URL := none } =
      .panic nilDereference := by
  decide

/-- C10, amended: for every request whose URL is not nil and every string map
(entries with distinct keys, listed in any order), `WithQuery` returns no error
and the request with the raw query of its URL set to the URL encoding of the
map alone (the pairs `key=value`, escaped, in the order of the keys, joined by
`&`) and nothing else changed: the result is the same whatever query string
the request carried and in whatever order the map is ranged over, and a
`WithQuery` applied to what another `WithQuery` returned leaves what it leaves
when applied alone. The escaping is the one of URL query components: an
escaped string holds unreserved characters, `+` and `%` only, unescaping it
(`%XX` a byte, `+` a space, the bytes read as UTF-8) gives the string back,
unreserved characters stand for themselves and a space is written `+`; the
order of the keys is the order of strings. For the map with the one entry
`q`, `yellowstone` the query is exactly `q=yellowstone`. -/
theorem withQuery_replaces_query (r : http.Request) (u : url.URL) (hu : r.URL = some u)
    (m : List (String × String)) (hm : (m.map Prod.fst).Nodup) :
    api.WithQuery m r =
      .ret ({ r with URL := some { u with RawQuery := url.encodeMap m } }, none) ∧
    (∀ q : String,
      api.WithQuery m { r with URL := some { u with RawQuery := q } } = api.WithQuery m r) ∧
    (∀ m1 : List (String × String), m1.Perm m → api.WithQuery m1 r = api.WithQuery m r) ∧
    (∀ (m0 : List (String × String)) (r1 : http.Request),
      api.WithQuery m0 r = .ret (r1, none) → api.WithQuery m r1 = api.WithQuery m r) ∧
    (∀ s : String, url.QueryUnescape (url.QueryEscape s) = some s) ∧
    (∀ (s : String) (c : Char), c ∈ (url.QueryEscape s).data →
      url.unreserved c = true ∨ c = '+' ∨ c = '%') ∧
    (∀ s t : String, url.QueryEscape (s ++ t) = url.QueryEscape s ++ url.QueryEscape t) ∧
    (∀ c : Char, url.unreserved c = true →
      url.QueryEscape (String.singleton c) = String.singleton c) ∧
    url.QueryEscape " " = "+" ∧
    (∀ s t : String, url.le s t ↔ s ≤ t) ∧
    api.WithQuery [("q", "yellowstone")] r =
      .ret ({ r with URL := some { u with RawQuery := "q=yellowstone" } }, none) ∧
    api.WithQuery [("park name", "Café & Bar=1/2"), ("limit", "10")] r =
      .ret ({ r with
        URL := some { u with RawQuery := "limit=10&park+name=Caf%C3%A9+%26+Bar%3D1%2F2" } },
        none) := by
  have e1 : url.encodeMap [("q", "yellowstone")] = "q=yellowstone" := by decide
  have e2 : url.encodeMap [("park name", "Café & Bar=1/2"), ("limit", "10")] =
      "limit=10&park+name=Caf%C3%A9+%26+Bar%3D1%2F2" := by decide
  refine ⟨api.withQuery_eq m hm r u hu, fun q => ?_, fun m1 hp => ?_, fun m0 r1 h0 => ?_,
    url.QueryUnescape_QueryEscape, url.QueryEscape_chars, url.QueryEscape_append,
    url.QueryEscape_unreserved, by decide, url.le_iff, ?_, ?_⟩
  · rw [api.withQuery_eq m hm r u hu, api.withQuery_eq m hm _ { u with RawQuery := q } rfl]
  · rw [api.withQuery_eq m hm r u hu,
      api.withQuery_eq m1 ((hp.map Prod.fst).nodup_iff.2 hm) r u hu,
      url.encodeMap_perm m m1 hp hm]
  · simp only [api.WithQuery, hu, Outcome.ret.injEq, Prod.mk.injEq, and_true] at h0
    subst h0
    rw [api.withQuery_eq m hm r u hu, api.withQuery_eq m hm _ _ rfl]
  · rw [api.withQuery_eq _ (by decide) r u hu, e1]
  · rw [api.withQuery_eq _ (by decide) r u hu, e2]

theorem withQuery_replaces_query_witness :
    api.WithQuery [("q", "yellowstone"), ("limit", "10")] sample.request =
      .ret ({ sample.request with
        URL := some ⟨"https", "developer.nps.gov", "/api/v1/parks", "limit=10&q=yellowstone", ""⟩ },
        none) :=
  ((withQuery_replaces_query sample.request
    { Scheme := "https", Host := "developer.nps.gov", Path := "/api/v1/parks",
      RawQuery := "limit=5", Fragment := "" } rfl [("q", "yellowstone"), ("limit", "10")]
    (by decide)).1).trans (by decide)

/-- C5: on a client whose rate-limit snapshot is initialised, for a response
with a status of 400 or more other than 400, 401, 404 and 429 (500, say)
whose body is the JSON envelope of a code `X` and a message `Y`, however the
stream cuts it and however far the decoder reads ahead, `validateResponse`
returns the error of `newAPIError`, and that error renders exactly as
`Code: X Message: Y`. -/
theorem structured_error_renders (ahead : Nat) (c : api.Client) (hc : c.Initialised)
    (resp : http.Response) (now : time.Time) (X Y : String) (hs : 400 ≤ resp.StatusCode)
    (h429 : resp.StatusCode ≠ 429) (h401 : resp.StatusCode ≠ 401)
    (h400 : resp.StatusCode ≠ 400) (h404 : resp.StatusCode ≠ 404)
    (hbody : resp.Body.content = api.envelope X Y) :
    ∃ c1 resp1 err,
      c.validateResponse ahead resp now = .ret (c1, resp1, some err) ∧
      (api.newAPIError ahead resp).1 = some err ∧
      err.Error = "Code: " ++ X ++ " Message: " ++ Y := by
  obtain ⟨rl, m, hrl, hm⟩ := hc
  rw [api.validateResponse_of_update ahead
    (api.updateRateLimitAmounts_of_initialised hrl hm resp now)]
  have hn := api.newAPIError_envelope ahead resp X Y hbody
  have hlt : ¬ resp.StatusCode < 400 := by omega
  simp only [hlt, h429, h401, h400, h404, if_false]
  exact ⟨_, _, _, by rw [hn], hn, rfl⟩

theorem structured_error_renders_witness :
    ∃ c1 resp1 err,
      sample.client.validateResponse 0
          (sample.response "500 Internal Server Error" 500
            ["\x7b\"error\":\x7b\"co", "de\":\"OVER_RATE_LIMIT\",\"message\":\"slow \\\"down\\\"\"\x7d\x7d"])
          5 = .ret (c1, resp1, some err) ∧
      (api.newAPIError 0 (sample.response "500 Internal Server Error" 500
          ["\x7b\"error\":\x7b\"co", "de\":\"OVER_RATE_LIMIT\",\"message\":\"slow \\\"down\\\"\"\x7d\x7d"])).1
        = some err ∧
      err.Error = "Code: " ++ "OVER_RATE_LIMIT" ++ " Message: " ++ "slow \"down\"" :=
  structured_error_renders 0 sample.client ⟨_, _, rfl, rfl⟩
    (sample.response "500 Internal Server Error" 500
      ["\x7b\"error\":\x7b\"co", "de\":\"OVER_RATE_LIMIT\",\"message\":\"slow \\\"down\\\"\"\x7d\x7d"])
    5 "OVER_RATE_LIMIT" "slow \"down\"" (by decide) (by decide) (by decide) (by decide)
    (by decide) (by decide)

/-- C6 (what the code does): for status 500 with the body `oops`, the decoder
reads the body into its buffer before it fails on the first byte, `io.ReadAll`
then finds the stream at its close, and the error of `newAPIError` is the status
line, a colon and a space, however far the decoder reads ahead: the text
`oops` is not in it. -/
theorem newAPIError_raw_text_after_decoder (ahead : Nat) :
    (api.newAPIError ahead (sample.response "500 Internal Server Error" 500 ["oops"])).1 =
      some (.errorString "500 Internal Server Error: ") ∧
    ¬ strings.Contains "500 Internal Server Error: " "oops" := by
  have h : json.readValue json.scanner.reset [] none ["oops"] =
      (.error json.SyntaxError, []) := by decide
  refine ⟨?_, by decide⟩
  simp only [api.newAPIError, json.Decode, sample.response, h, io.ReadAll, List.drop_nil]
  rfl

/-- C7, as stated, fails: for status 500 with the body
`\x7b"error":\x7b"code":"X","message":"Y"\x7d\x7d`, whatever the read-ahead of the decoder,
the error of `validateResponse` reads `Code: X Message: Y`, which does not
contain the status line. -/
theorem structured_error_omits_status :
    ∃ err : Error,
      (∀ ahead : Nat, ∃ c1 resp1,
        sample.client.validateResponse ahead
            (sample.response "500 Internal Server Error" 500
              ["\x7b\"error\":\x7b\"code\":\"X\",\"message\":\"Y\"\x7d\x7d"]) 5 =
          .ret (c1, resp1, some err)) ∧
      err.Error = "Code: X Message: Y" ∧
      ¬ strings.Contains err.Error "500 Internal Server Error" := by
  refine ⟨.apiError { Response := { Code := "X", Message := "Y" } }, fun ahead => ?_,
    by decide, by decide⟩
  have hu := api.updateRateLimitAmounts_of_initialised
    (show sample.client.rateLimit = some ⟨"40", "7", 1, some {}⟩ from rfl) rfl
    (sample.response "500 Internal Server Error" 500
      ["\x7b\"error\":\x7b\"code\":\"X\",\"message\":\"Y\"\x7d\x7d"]) 5
  have hn := api.newAPIError_envelope ahead
    (sample.response "500 Internal Server Error" 500
      ["\x7b\"error\":\x7b\"code\":\"X\",\"message\":\"Y\"\x7d\x7d"]) "X" "Y" (by decide)
  rw [api.validateResponse_of_update ahead hu, hn]
  exact ⟨_, _, rfl⟩

/-- C7, amended: on a client whose rate-limit snapshot is initialised, for a
response with a status of 400 or more, `validateResponse` returns an error
whose text contains the status line when the status is 429, 401, 400 or 404,
and for any other status when the JSON decoder fails, in both branches of
`newAPIError` taken then: the raw-text branch (the text begins with the status
line, a colon and a space) and the unreadable-body branch (the status line,
`unable to decode error response` and the read error). When the decoder
succeeds the text is `Code: ` and the decoded code, ` Message: ` and the decoded
message and nothing else: the status line is not put into it, and the same
error comes back whatever the status line of the response is. -/
theorem validateResponse_error_text (ahead : Nat) (c : api.Client) (hc : c.Initialised)
    (resp : http.Response) (now : time.Time) (hs : 400 ≤ resp.StatusCode) :
    ∃ c1 resp1 err,
      c.validateResponse ahead resp now = .ret (c1, resp1, some err) ∧
      ((resp.StatusCode = 429 ∨ resp.StatusCode = 401 ∨ resp.StatusCode = 400 ∨
          resp.StatusCode = 404) → strings.Contains err.Error resp.Status) ∧
      (¬ (resp.StatusCode = 429 ∨ resp.StatusCode = 401 ∨ resp.StatusCode = 400 ∨
          resp.StatusCode = 404) →
        match json.Decode ahead resp.Body { Response := { Code := "", Message := "" } } with
        | (a, none, _) =>
          err = .apiError a ∧
          err.Error = "Code: " ++ a.Response.Code ++ " Message: " ++ a.Response.Message ∧
          ∀ status : String, ∃ c2 resp2,
            c.validateResponse ahead { resp with Status := status } now =
              .ret (c2, resp2, some err)
        | (_, some _, _) =>
          strings.Contains err.Error resp.Status ∧
          match resp.Body.err with
          | none => ∃ raw : String, err = .errorString (resp.Status ++ ": " ++ raw)
          | some e =>
            err = .wrapError (resp.Status ++ ": unable to decode error response: " ++ e.Error) e) := by
  obtain ⟨rl, m, hrl, hm⟩ := hc
  rw [api.validateResponse_of_update ahead
    (api.updateRateLimitAmounts_of_initialised hrl hm resp now)]
  have hlt : ¬ resp.StatusCode < 400 := by omega
  have hself := strings.Contains_self resp.Status
  simp only [hlt, if_false]
  split_ifs with h1 h2 h3 h4
  · exact ⟨_, _, _, rfl, fun _ => strings.Contains_append_left _ hself, fun h => absurd (Or.inl h1) h⟩
  · exact ⟨_, _, _, rfl, fun _ => strings.Contains_append_left _ hself,
      fun h => absurd (Or.inr (Or.inl h2)) h⟩
  · exact ⟨_, _, _, rfl, fun _ => strings.Contains_append_left _ hself,
      fun h => absurd (Or.inr (Or.inr (Or.inl h3))) h⟩
  · exact ⟨_, _, _, rfl, fun _ => strings.Contains_append_left _ hself,
      fun h => absurd (Or.inr (Or.inr (Or.inr h4))) h⟩
  · have hcases := api.newAPIError_cases ahead resp
    have hsome := api.newAPIError_isSome ahead resp
    cases hq : (api.newAPIError ahead resp).1 with
    | none => simp [hq] at hsome
    | some err =>
      refine ⟨_, _, err, rfl, fun h => ?_, fun _ => ?_⟩
      · rcases h with h | h | h | h <;> contradiction
      · rw [hq] at hcases
        cases hd : json.Decode ahead resp.Body { Response := { Code := "", Message := "" } } with
        | mk a rest =>
          obtain ⟨e, body1⟩ := rest
          rw [hd] at hcases
          cases e with
          | none =>
            simp only [Option.some.injEq] at hcases
            subst hcases
            refine ⟨rfl, rfl, fun status => ?_⟩
            rw [api.validateResponse_of_update ahead
              (api.updateRateLimitAmounts_of_initialised hrl hm { resp with Status := status } now)]
            simp only [hlt, h1, h2, h3, h4, if_false]
            exact ⟨_, _, by rw [api.newAPIError_status ahead resp status a hq]⟩
          | some e1 =>
            simp only [] at hcases ⊢
            cases hb : resp.Body.err with
            | none =>
              rw [hb] at hcases
              simp only [Option.some.injEq] at hcases
              subst hcases
              exact ⟨strings.Contains_append_right _ (strings.Contains_append_right _ hself),
                _, rfl⟩
            | some e2 =>
              rw [hb] at hcases
              simp only [Option.some.injEq] at hcases
              subst hcases
              exact ⟨strings.Contains_append_right _ (strings.Contains_append_right _ hself), rfl⟩

theorem validateResponse_error_text_witness :
    ∃ c1 resp1 err,
      sample.client.validateResponse 0
          (sample.response "502 Bad Gateway" 502 ["<html>", "bad gateway</html>"]) 5 =
        .ret (c1, resp1, some err) ∧
      strings.Contains err.Error "502 Bad Gateway" :=
  match validateResponse_error_text 0 sample.client ⟨_, _, rfl, rfl⟩
    (sample.response "502 Bad Gateway" 502 ["<html>", "bad gateway</html>"]) 5 (by decide) with
  | ⟨c1, resp1, err, h, _, h2⟩ => ⟨c1, resp1, err, h, (h2 (by decide)).1⟩
